import Mathlib

/-!
# Verification of the bypass-paywall-chrome indexing/caching core

Shallow embedding of the repository's performance modules and proofs of the
specification's claims about them:

* `RegexCache` (src/lib/user-settings.js, class `RegexCache`): pattern
  compilation cache and bounded FIFO result cache.
* `SiteIndexes` (src/unnamed/part_004, class `SiteIndexes`): domain→config
  indexes and derived feature tables.
* `HeaderRuleEngine` (src/unnamed/part_002): per-domain header rewriting.
* `ChunkLoader` (src/unnamed/part_003): lazy partition loading with retries
  and request coalescing.
* `UsageLearner` (src/lib/usage-learner.js): visit counting and promotion.

JavaScript `Map`s are embedded as association lists in insertion order
(`Map` iteration order), `Set`s as duplicate-free lists in insertion order.
A JavaScript `RegExp` object is embedded as a `JSRegExp`: its `source` and
`flags` strings plus its `test` behaviour as a function `String → Bool`.
The `new RegExp : String → RegExp` constructor is an external primitive and
is passed in as a parameter `newRE : String → Option JSRegExp` (`none`
models the constructor throwing on an invalid pattern).
-/

namespace BPC

/-! ## Association-list model of JavaScript `Map` -/

/-- `Map.get k`: value of the (unique) binding for `k`, if any. -/
def lookupKV {α : Type} (k : String) : List (String × α) → Option α
  | [] => none
  | (k', v) :: t => if k' = k then some v else lookupKV k t

/-- `Map.has k`. -/
def hasKV {α : Type} (k : String) (m : List (String × α)) : Bool :=
  (lookupKV k m).isSome

/-- `Map.set k v`: replaces the value in place if `k` is bound (JS `Map`
keeps the original insertion position), otherwise appends a new binding. -/
def setKV {α : Type} (k : String) (v : α) : List (String × α) → List (String × α)
  | [] => [(k, v)]
  | (k', v') :: t => if k' = k then (k, v) :: t else (k', v') :: setKV k v t

/-- `Set.add d`: appends if absent (JS `Set` keeps first insertion position). -/
def addSet (d : String) (s : List String) : List String :=
  if s.contains d then s else s ++ [d]

/-! ## RegexCache (src/lib/user-settings.js lines 249–348) -/

/-- A JavaScript `RegExp` object: its `source`, `flags`, and the behaviour of
its `test` method. -/
structure JSRegExp where
  source : String
  flags : String
  testFn : String → Bool

/-- The argument accepted by `RegexCache.compile`: either an existing `RegExp`
object or a string pattern source. -/
inductive JSPattern where
  | re (r : JSRegExp)
  | str (s : String)

/-- State of a `RegexCache` instance (constructor, lines 250–254):
`cache` maps pattern key → compiled `RegExp`, `matchResults` maps
`source::url` → boolean in insertion order, `maxCacheSize` bounds
`matchResults` (default 1000). -/
structure RegexCache where
  cache : List (String × JSRegExp)
  matchResults : List (String × Bool)
  maxCacheSize : Nat

/-- `new RegexCache(maxCacheSize = 1000)`. -/
def RegexCache.new (maxCacheSize : Nat := 1000) : RegexCache :=
  ⟨[], [], maxCacheSize⟩

/-- `RegexCache.compile` (lines 260–286). For a `RegExp` argument the key is
`source + flags`; for a string argument the key is the string itself and the
external constructor `newRE` is invoked on a cache miss (`none` = the
constructor threw, in which case nothing is cached and `null` is returned). -/
def RegexCache.compile (newRE : String → Option JSRegExp) (c : RegexCache) :
    JSPattern → Option JSRegExp × RegexCache
  | .re r =>
    let key := r.source ++ r.flags
    if hasKV key c.cache then
      (lookupKV key c.cache, c)
    else
      let cache' := setKV key r c.cache
      (lookupKV key cache', { c with cache := cache' })
  | .str s =>
    if hasKV s c.cache then
      (lookupKV s c.cache, c)
    else
      match newRE s with
      | none => (none, c)
      | some r =>
        let cache' := setKV s r c.cache
        (lookupKV s cache', { c with cache := cache' })

/-- The eviction step of `RegexCache.test` (lines 314–317):
`firstKey = matchResults.keys().next().value; matchResults.delete(firstKey)`.
Since `Map` keys are unique, deleting the first iterated key removes exactly
the head entry; on an empty map `firstKey` is `undefined` and the delete is a
no-op. -/
def evictFirst : List (String × Bool) → List (String × Bool)
  | [] => []
  | _ :: t => t

/-- `RegexCache.test` (lines 292–321): compile, consult the result cache under
the key `source + "::" + url`, otherwise evaluate, evict the oldest entry if
the bound is reached, and insert. -/
def RegexCache.test (newRE : String → Option JSRegExp) (c : RegexCache)
    (p : JSPattern) (url : String) : Bool × RegexCache :=
  match RegexCache.compile newRE c p with
  | (none, c') => (false, c')
  | (some compiled, c') =>
    let cacheKey := compiled.source ++ "::" ++ url
    match lookupKV cacheKey c'.matchResults with
    | some b => (b, c')
    | none =>
      let result := compiled.testFn url
      let evicted :=
        if c'.maxCacheSize ≤ c'.matchResults.length then evictFirst c'.matchResults
        else c'.matchResults
      (result, { c' with matchResults := setKV cacheKey result evicted })

/-- Run a sequence of `test` calls, keeping only the final cache state. -/
def RegexCache.runTests (newRE : String → Option JSRegExp) :
    RegexCache → List (JSPattern × String) → RegexCache
  | c, [] => c
  | c, (p, url) :: rest =>
    RegexCache.runTests newRE (RegexCache.test newRE c p url).2 rest

/-! ## SiteIndexes (src/unnamed/part_004 lines 223–428) -/

/-- A `useragent` config value: a bot tag string (`'googlebot'` etc.) or a
literal override object. -/
inductive UAVal where
  | tag (s : String)
  | obj (s : String)
deriving DecidableEq

/-- JS truthiness of a `useragent` value: strings are falsy when empty,
objects are always truthy. -/
def uaTruthy : Option UAVal → Bool
  | some (.tag s) => s ≠ ""
  | some (.obj _) => true
  | none => false

/-- JS truthiness of an optional string config field. -/
def strTruthy : Option String → Bool
  | some s => s ≠ ""
  | none => false

/-- JS truthiness of a `block_regex` value: a `RegExp` object is always
truthy, a string is truthy iff non-empty. -/
def patTruthy : Option JSPattern → Bool
  | some (.re _) => true
  | some (.str s) => s ≠ ""
  | none => false

/-- One catalog record (a value of the `siteConfigs` object passed to
`buildIndexes`). Fields not consulted by the indexed operations are omitted. -/
structure SiteConfig where
  domain : Option String := none
  group : Option (List String) := none
  useragent : Option UAVal := none
  referer : Option String := none
  random_ip : Bool := false
  allow_cookies : Bool := false
  remove_cookies : Bool := false
  remove_cookies_select_hold : Option String := none
  remove_cookies_select_drop : Option String := none
  block_regex : Option JSPattern := none

/-- A cookie-handling rule as built by `indexFeatures` (lines 296–312):
`{ type: 'allow' | 'remove' }` possibly extended with `selectHold` /
`selectDrop`. -/
structure CookieRule where
  type : Option String := none
  selectHold : Option String := none
  selectDrop : Option String := none
deriving DecidableEq

/-- State of the `SiteIndexes` instance (constructor, lines 224–239). -/
structure SiteIndexes where
  domainMap : List (String × SiteConfig) := []
  groupMap : List (String × String) := []
  groupConfigs : List (String × SiteConfig) := []
  botUserAgents : List (String × UAVal) := []
  cookieRules : List (String × CookieRule) := []
  blockRules : List (String × List JSRegExp) := []
  restrictionMap : List (String × JSRegExp) := []
  totalSites : Nat := 0
  indexedDomains : List String := []

/-- The user-agent part of the `indexFeatures` loop body (lines 291–293). -/
def uaStep (cfg : SiteConfig) (d : String) (idx : SiteIndexes) : SiteIndexes :=
  match cfg.useragent with
  | some u =>
    if uaTruthy (some u) then { idx with botUserAgents := setKV d u idx.botUserAgents }
    else idx
  | none => idx

/-- The `allow_cookies` / `remove_cookies` part of the loop body
(lines 296–300). -/
def cookieTypeStep (cfg : SiteConfig) (d : String) (idx : SiteIndexes) : SiteIndexes :=
  if cfg.allow_cookies then
    { idx with cookieRules := setKV d { type := some "allow" } idx.cookieRules }
  else if cfg.remove_cookies then
    { idx with cookieRules := setKV d { type := some "remove" } idx.cookieRules }
  else idx

/-- The `remove_cookies_select_hold` part of the loop body (lines 302–306). -/
def cookieHoldStep (cfg : SiteConfig) (d : String) (idx : SiteIndexes) : SiteIndexes :=
  match cfg.remove_cookies_select_hold with
  | some v =>
    if v ≠ "" then
      let existing := (lookupKV d idx.cookieRules).getD {}
      { idx with cookieRules := setKV d { existing with selectHold := some v } idx.cookieRules }
    else idx
  | none => idx

/-- The `remove_cookies_select_drop` part of the loop body (lines 308–312). -/
def cookieDropStep (cfg : SiteConfig) (d : String) (idx : SiteIndexes) : SiteIndexes :=
  match cfg.remove_cookies_select_drop with
  | some v =>
    if v ≠ "" then
      let existing := (lookupKV d idx.cookieRules).getD {}
      { idx with cookieRules := setKV d { existing with selectDrop := some v } idx.cookieRules }
    else idx
  | none => idx

/-- The `block_regex` part of the loop body (lines 315–322): pre-compile via
the regex cache and push onto the domain's rule list. -/
def blockStep (newRE : String → Option JSRegExp) (cfg : SiteConfig) (d : String)
    (idx : SiteIndexes) (rc : RegexCache) : SiteIndexes × RegexCache :=
  match cfg.block_regex with
  | some p =>
    if patTruthy (some p) then
      match RegexCache.compile newRE rc p with
      | (some compiled, rc2) =>
        let existing := (lookupKV d idx.blockRules).getD []
        ({ idx with blockRules := setKV d (existing ++ [compiled]) idx.blockRules }, rc2)
      | (none, rc2) => (idx, rc2)
    else (idx, rc)
  | none => (idx, rc)

/-- The body of the `for (let domain of domains)` loop of `indexFeatures`
(lines 289–323) for one domain: the four feature updates in source order. -/
def indexFeatureDomain (newRE : String → Option JSRegExp) (cfg : SiteConfig)
    (st : SiteIndexes × RegexCache) (d : String) : SiteIndexes × RegexCache :=
  blockStep newRE cfg d
    (cookieDropStep cfg d (cookieHoldStep cfg d (cookieTypeStep cfg d (uaStep cfg d st.1))))
    st.2

/-- `SiteIndexes.indexFeatures` (lines 284–324). Returns immediately when
`config.domain` is falsy; otherwise iterates `config.group || [config.domain]`. -/
def indexFeatures (newRE : String → Option JSRegExp) (cfg : SiteConfig)
    (st : SiteIndexes × RegexCache) : SiteIndexes × RegexCache :=
  match cfg.domain with
  | none => st
  | some d0 =>
    if d0 = "" then st
    else (cfg.group.getD [d0]).foldl (indexFeatureDomain newRE cfg) st

/-- JavaScript `String.prototype.startsWith`, as a structural prefix test on
the string's characters. -/
def jsStartsWith (s pre : String) : Bool :=
  pre.toList.isPrefixOf s.toList

/-- The `continue` guard of `buildIndexes` (line 249):
`config.domain && config.domain.startsWith('#')`. -/
def isMetaEntry (cfg : SiteConfig) : Bool :=
  match cfg.domain with
  | some d => d ≠ "" && jsStartsWith d "#"
  | none => false

/-- The body of the `for (let [siteName, config] of Object.entries(...))` loop
of `buildIndexes` (lines 247–271) for one catalog entry. -/
def buildEntry (newRE : String → Option JSRegExp) (st : SiteIndexes × RegexCache)
    (e : String × SiteConfig) : SiteIndexes × RegexCache :=
  let siteName := e.1
  let cfg := e.2
  if isMetaEntry cfg then st
  else
    let idx := st.1
    let rc := st.2
    let idx :=
      match cfg.group with
      | some g =>
        let idx := g.foldl (fun idx d =>
          { idx with groupMap := setKV d siteName idx.groupMap,
                     indexedDomains := addSet d idx.indexedDomains }) idx
        { idx with groupConfigs := setKV siteName cfg idx.groupConfigs,
                   totalSites := idx.totalSites + g.length }
      | none =>
        match cfg.domain with
        | some d0 =>
          if d0 ≠ "" then
            { idx with domainMap := setKV d0 cfg idx.domainMap,
                       indexedDomains := addSet d0 idx.indexedDomains,
                       totalSites := idx.totalSites + 1 }
          else idx
        | none => idx
    indexFeatures newRE cfg (idx, rc)

/-- `SiteIndexes.buildIndexes` (lines 244–279): fold `buildEntry` over
`Object.entries(siteConfigs)` in order. -/
def buildIndexes (newRE : String → Option JSRegExp) (st : SiteIndexes × RegexCache)
    (siteConfigs : List (String × SiteConfig)) : SiteIndexes × RegexCache :=
  siteConfigs.foldl (buildEntry newRE) st

/-- `SiteIndexes.getSiteConfig` (lines 329–342). -/
def SiteIndexes.getSiteConfig (idx : SiteIndexes) (domain : String) : Option SiteConfig :=
  match lookupKV domain idx.domainMap with
  | some cfg => some cfg
  | none =>
    match lookupKV domain idx.groupMap with
    | some groupName => lookupKV groupName idx.groupConfigs
    | none => none

/-- `SiteIndexes.hasDomain` (lines 347–349). -/
def SiteIndexes.hasDomain (idx : SiteIndexes) (domain : String) : Bool :=
  idx.indexedDomains.contains domain

/-- `SiteIndexes.getBlockRules` (lines 368–370). -/
def SiteIndexes.getBlockRules (idx : SiteIndexes) (domain : String) : List JSRegExp :=
  (lookupKV domain idx.blockRules).getD []

/-- The `for (let pattern of rules)` loop of `shouldBlockRequest`
(lines 379–387): `regexCache.test` each pattern, returning at the first
match. -/
def blockAnyTest (newRE : String → Option JSRegExp) (rc : RegexCache)
    (rules : List JSRegExp) (url : String) : Bool × RegexCache :=
  match rules with
  | [] => (false, rc)
  | r :: rest =>
    let tr := RegexCache.test newRE rc (.re r) url
    if tr.1 then (true, tr.2) else blockAnyTest newRE tr.2 rest url

/-- `SiteIndexes.shouldBlockRequest` (lines 375–390). -/
def SiteIndexes.shouldBlockRequest (newRE : String → Option JSRegExp)
    (idx : SiteIndexes) (rc : RegexCache) (domain url : String) : Bool × RegexCache :=
  let rules := idx.getBlockRules domain
  if rules.isEmpty then (false, rc)
  else blockAnyTest newRE rc rules url

/-! ## HeaderRuleEngine (src/unnamed/part_002) -/

/-- An HTTP header as handed to `applyHeaders`: `{ name, value }`. -/
structure HTTPHeader where
  name : String
  value : String
deriving DecidableEq

/-- A pre-computed header rule (built by `buildRules`, lines 29–53): at most a
user-agent string, a referer string, and a pool of synthetic addresses.
`buildRules` only ever stores non-empty strings and a non-empty pool, so JS
truthiness of a present field coincides with `Option.isSome`. -/
structure HeaderRule where
  userAgent : Option String := none
  referer : Option String := none
  randomIP : Option (List String) := none

/-- `HeaderRuleEngine.applyHeaders` (lines 73–114), with the evident intent of
the source restored: the source declares `modified` twice
(`let modified = [...headers]; let modified = false;`, lines 77–78), which is
a JavaScript `SyntaxError`, so the module as written fails to load.  The
second declaration is a dead leftover — every subsequent use treats
`modified` as the header array — and is dropped here.  `now` stands for
`Date.now()`; the forwarded address is `rule.randomIP[now % pool.length]`
(out-of-range indexing cannot occur for the non-empty pools `buildRules`
creates; an empty pool would yield `undefined`, modelled as `""`). -/
def applyHeaders (now : Nat) (rules : List (String × HeaderRule)) (domain : String)
    (headers : List HTTPHeader) : List HTTPHeader :=
  match lookupKV domain rules with
  | none => headers
  | some rule =>
    let modified := headers.filter fun h =>
      let name := h.name.toLower
      if rule.userAgent.isSome && name == "user-agent" then false
      else if rule.referer.isSome && name == "referer" then false
      else if rule.randomIP.isSome && name == "x-forwarded-for" then false
      else true
    let modified :=
      match rule.userAgent with
      | some ua => modified ++ [⟨"User-Agent", ua⟩]
      | none => modified
    let modified :=
      match rule.referer with
      | some r => modified ++ [⟨"Referer", r⟩]
      | none => modified
    match rule.randomIP with
    | some pool => modified ++ [⟨"X-Forwarded-For", pool.getD (now % pool.length) ""⟩]
    | none => modified

/-- Modelled from the spec: the header names the claim says are removed for
the features a rule carries. -/
def removedNames (rule : HeaderRule) : List String :=
  (if rule.userAgent.isSome then ["user-agent"] else []) ++
  (if rule.referer.isSome then ["referer"] else []) ++
  (if rule.randomIP.isSome then ["x-forwarded-for"] else [])

/-- Modelled from the spec: the single replacement header appended per carried
feature, the forwarded address being the pool entry at index
`currentTimeMillis mod poolSize`. -/
def appendedHeaders (now : Nat) (rule : HeaderRule) : List HTTPHeader :=
  (match rule.userAgent with
   | some ua => [⟨"User-Agent", ua⟩]
   | none => []) ++
  (match rule.referer with
   | some r => [⟨"Referer", r⟩]
   | none => []) ++
  (match rule.randomIP with
   | some pool => [⟨"X-Forwarded-For", pool.getD (now % pool.length) ""⟩]
   | none => [])

/-- Modelled from the spec (claim C2's description of `applyHeaders`): return
the input unchanged when no rule exists; otherwise remove every prior header
whose lower-cased name is among the carried features' names and append exactly
one replacement header per carried feature. -/
def applyHeadersSpec (now : Nat) (rules : List (String × HeaderRule)) (domain : String)
    (headers : List HTTPHeader) : List HTTPHeader :=
  match lookupKV domain rules with
  | none => headers
  | some rule =>
    headers.filter (fun h => !((removedNames rule).contains h.name.toLower)) ++
      appendedHeaders now rule

/-! ## ChunkLoader (src/unnamed/part_003) -/

/-- One manifest record: `{ file, domains }`. -/
structure ChunkData where
  file : String
  domains : List String

/-- State of the `ChunkLoader` instance (constructor, lines 6–11).  `loading`
maps a chunk name to the identity of the shared in-flight load promise. -/
structure ChunkLoader where
  loadedChunks : List String := []
  siteToChunkMap : List (String × String) := []
  chunkManifest : List (String × ChunkData) := []
  loading : List (String × Nat) := []

/-- `ChunkLoader.init` (lines 16–29): store the manifest and build the
domain → chunk reverse index. -/
def ChunkLoader.init (manifest : List (String × ChunkData)) : ChunkLoader :=
  { chunkManifest := manifest,
    siteToChunkMap := manifest.foldl
      (fun m c => c.2.domains.foldl (fun m d => setKV d c.1 m) m) [] }

/-- Outcome of one `importScript` attempt: the import threw, or it succeeded —
in which case the chunk script may or may not have set the global
`loadedSiteChunk` catalog. -/
inductive ImportOutcome where
  | fail
  | ok (chunk : Option (List (String × SiteConfig)))

/-- The retry loop of `ChunkLoader.loadChunk` (lines 79–113), parameterised by
the import oracle `importResult file attempt`.  On success the chunk is marked
loaded and, when the chunk script set `loadedSiteChunk`, the new sites are
merged via `buildIndexes`.  On the last failed attempt (`attempt ===
retries - 1`) it returns `false`; otherwise it backs off and retries.  `fuel`
is the number of attempts remaining (`retries - attempt`). -/
def loadLoop (newRE : String → Option JSRegExp)
    (importResult : String → Nat → ImportOutcome) (chunkName file : String)
    (cl : ChunkLoader) (idx : SiteIndexes) (rc : RegexCache) :
    Nat → Nat → Bool × ChunkLoader × SiteIndexes × RegexCache
  | _, 0 => (false, cl, idx, rc)
  | attempt, fuel + 1 =>
    match importResult file attempt with
    | .ok chunk =>
      let cl' := { cl with loadedChunks := addSet chunkName cl.loadedChunks }
      match chunk with
      | some sites =>
        let st := buildIndexes newRE (idx, rc) sites
        (true, cl', st.1, st.2)
      | none => (true, cl', idx, rc)
    | .fail => loadLoop newRE importResult chunkName file cl idx rc (attempt + 1) fuel

/-- `ChunkLoader.loadChunk` (lines 72–116): unknown chunks yield `false`;
otherwise run the retry loop starting at attempt 0. -/
def ChunkLoader.loadChunk (newRE : String → Option JSRegExp)
    (importResult : String → Nat → ImportOutcome) (cl : ChunkLoader)
    (idx : SiteIndexes) (rc : RegexCache) (chunkName : String)
    (retries : Nat := 3) : Bool × ChunkLoader × SiteIndexes × RegexCache :=
  match lookupKV chunkName cl.chunkManifest with
  | none => (false, cl, idx, rc)
  | some chunkData => loadLoop newRE importResult chunkName chunkData.file cl idx rc 0 retries

/-- `ChunkLoader.ensureChunkLoaded` (lines 34–67) as run to completion by a
single (sequential) caller: in that case `loading` is empty on entry, and the
`loading.set` / `finally { loading.delete }` pair around the awaited
`loadChunk` cancels out, so it is elided here (the concurrent behaviour of
`loading` is modelled separately by `ensureStep`). -/
def ChunkLoader.ensureChunkLoadedSeq (newRE : String → Option JSRegExp)
    (importResult : String → Nat → ImportOutcome) (cl : ChunkLoader)
    (idx : SiteIndexes) (rc : RegexCache) (domain : String)
    (retries : Nat := 3) : Bool × ChunkLoader × SiteIndexes × RegexCache :=
  if idx.hasDomain domain then (true, cl, idx, rc)
  else
    match lookupKV domain cl.siteToChunkMap with
    | none => (false, cl, idx, rc)
    | some chunkName =>
      if cl.loadedChunks.contains chunkName then (true, cl, idx, rc)
      else ChunkLoader.loadChunk newRE importResult cl idx rc chunkName retries

/-- What the synchronous prefix of an `ensureChunkLoaded` call does before its
first suspension point. -/
inductive EnsureOutcome where
  | done (b : Bool)
  | awaitShared (p : Nat)
  | startedLoad (p : Nat)
deriving DecidableEq

/-- The synchronous prefix of `ChunkLoader.ensureChunkLoaded` (lines 34–59):
everything up to the first `await`.  JavaScript's single-threaded execution
makes this prefix atomic.  `hasDomainFn` stands for `siteIndexes.hasDomain`;
`fresh` is the identity of the new promise created by calling `loadChunk`
when no load is in flight (lines 58–59 run synchronously: the promise is
stored in `loading` before any other caller can run). -/
def ChunkLoader.ensureStep (hasDomainFn : String → Bool) (cl : ChunkLoader)
    (domain : String) (fresh : Nat) : EnsureOutcome × ChunkLoader :=
  if hasDomainFn domain then (.done true, cl)
  else
    match lookupKV domain cl.siteToChunkMap with
    | none => (.done false, cl)
    | some chunkName =>
      if cl.loadedChunks.contains chunkName then (.done true, cl)
      else
        match lookupKV chunkName cl.loading with
        | some p => (.awaitShared p, cl)
        | none => (.startedLoad fresh, { cl with loading := setKV chunkName fresh cl.loading })

/-! ## UsageLearner (src/lib/usage-learner.js) -/

/-- A write to the persistent key-value store (`ext_api.storage.local.set`). -/
inductive StorageWrite where
  | promotedSites (domains : List String)
  | usageData (counts : List (String × Nat)) (promoted : List String)
deriving DecidableEq

/-- State of the `UsageLearner` instance (constructor, lines 6–11). -/
structure UsageLearner where
  visitCounts : List (String × Nat) := []
  promotionThreshold : Nat := 5
  promotedSites : List String := []
  enabled : Bool := true
deriving DecidableEq

/-- `new UsageLearner(promotionThreshold = 5)`. -/
def UsageLearner.new (promotionThreshold : Nat := 5) : UsageLearner :=
  { promotionThreshold := promotionThreshold }

/-- `UsageLearner.promoteToCore` (lines 57–70): add to the promoted set and
persist it. -/
def UsageLearner.promoteToCore (u : UsageLearner) (domain : String) :
    UsageLearner × List StorageWrite :=
  let u' := { u with promotedSites := addSet domain u.promotedSites }
  (u', [.promotedSites u'.promotedSites])

/-- `UsageLearner.persist` (lines 99–108). -/
def UsageLearner.persist (u : UsageLearner) : List StorageWrite :=
  [.usageData u.visitCounts u.promotedSites]

/-- `UsageLearner.trackVisit` (lines 37–52): no-op when disabled; otherwise
increment the counter, promote on first reaching the threshold, and persist
every 10th visit. -/
def UsageLearner.trackVisit (u : UsageLearner) (domain : String) :
    UsageLearner × List StorageWrite :=
  if !u.enabled then (u, [])
  else
    let count := (lookupKV domain u.visitCounts).getD 0 + 1
    let u1 := { u with visitCounts := setKV domain count u.visitCounts }
    let step :=
      if u1.promotionThreshold ≤ count && !(u1.promotedSites.contains domain) then
        u1.promoteToCore domain
      else (u1, [])
    let w2 := if count % 10 = 0 then step.1.persist else []
    (step.1, step.2 ++ w2)

/-- `UsageLearner.isPromoted` (lines 75–77). -/
def UsageLearner.isPromoted (u : UsageLearner) (domain : String) : Bool :=
  u.promotedSites.contains domain

/-- `UsageLearner.getVisitCount` (lines 82–84). -/
def UsageLearner.getVisitCount (u : UsageLearner) (domain : String) : Nat :=
  (lookupKV domain u.visitCounts).getD 0

/-- `UsageLearner.setEnabled` (lines 113–116). -/
def UsageLearner.setEnabled (u : UsageLearner) (b : Bool) : UsageLearner :=
  { u with enabled := b }

/-- `n` successive `trackVisit` calls for the same domain. -/
def UsageLearner.trackN (u : UsageLearner) (domain : String) : Nat → UsageLearner
  | 0 => u
  | n + 1 => ((u.trackN domain n).trackVisit domain).1

/-! ## Concrete objects used in counterexamples and witnesses -/

/-- The result-cache key `compiled.source + '::' + url` used by
`RegexCache.test` (line 296). -/
def resultKey (r : JSRegExp) (url : String) : String :=
  r.source ++ "::" ++ url

/-- The result-cache entry a miss inserts for `(r, url)`. -/
def entryOf (r : JSRegExp) (url : String) : String × Bool :=
  (resultKey r url, r.testFn url)

/-- A `new RegExp` constructor for contexts where only `RegExp`-object
patterns are compiled (string compilation never invoked / always throwing). -/
def noNewRE : String → Option JSRegExp := fun _ => none

/-- Substring test: does `hay` contain `needle` as a contiguous run?  Used to
give the `test` behaviour of regexes whose pattern is literal text. -/
def hasSubstr (needle : List Char) : List Char → Bool
  | [] => needle.isEmpty
  | c :: t => needle.isPrefixOf (c :: t) || hasSubstr needle t

/-- The JavaScript regex `/a/`: matches any subject containing `"a"`. -/
def reA : JSRegExp :=
  ⟨"a", "", fun s => hasSubstr "a".toList s.toList⟩

/-- The JavaScript regex `/a::b/`: matches any subject containing `"a::b"`. -/
def reAB : JSRegExp :=
  ⟨"a::b", "", fun s => hasSubstr "a::b".toList s.toList⟩

/-- The JavaScript regex `/zzz/`: matches any subject containing `"zzz"`. -/
def reZ : JSRegExp :=
  ⟨"zzz", "", fun s => hasSubstr "zzz".toList s.toList⟩

/-- The regex `/\.tinypass\.com\//` of the spec's scenario: matches any
subject containing the literal text `".tinypass.com/"`. -/
def reTinypass : JSRegExp :=
  ⟨"\\.tinypass\\.com/", "", fun s => hasSubstr ".tinypass.com/".toList s.toList⟩

/-- A result cache reached by running `test(/a::b/, "a")` on a fresh
`new RegexCache(1)`: it holds the entry `"a::b::a" ↦ false`, which collides
with the key `test` computes for the pair `(/a/, "b::a")`. -/
def rcPoisoned : RegexCache :=
  (RegexCache.test noNewRE (RegexCache.new 1) (.re reAB) "a").2

/-- Catalog with two entries for the domain `"d"`, carrying the block
patterns `/a/` and `/zzz/`. -/
def twoRuleCatalog : List (String × SiteConfig) :=
  [("n1", { domain := some "d", block_regex := some (.re reA) }),
   ("n2", { domain := some "d", block_regex := some (.re reZ) })]

/-- The indexes and cache after one `buildIndexes(twoRuleCatalog)` from an
empty index over the poisoned one-slot cache. -/
def builtOnce : SiteIndexes × RegexCache :=
  buildIndexes noNewRE ({}, rcPoisoned) twoRuleCatalog

/-- The indexes and cache after a second, identical `buildIndexes` call. -/
def builtTwice : SiteIndexes × RegexCache :=
  buildIndexes noNewRE builtOnce twoRuleCatalog

/-- A catalog entry that declares a `group` but no `domain` field, together
with a `useragent` feature. -/
def groupOnlyCatalog : List (String × SiteConfig) :=
  [("g", { group := some ["a.com"], useragent := some (.tag "googlebot") })]

/-- The spec's scenario catalog:
`{name: "nyt", domain: "nytimes.com", blockPatterns: ["\\.tinypass\\.com/"]}`. -/
def nytCatalog : List (String × SiteConfig) :=
  [("nyt", { domain := some "nytimes.com", block_regex := some (.re reTinypass) })]

/-- The manifest of the spec's scenario: partition `"india"` owning the
domain `"example.in"`. -/
def indiaManifest : List (String × ChunkData) :=
  [("india", ⟨"chunks/sites-india.js", ["example.in", "example2.in"]⟩)]

/-- A chunk loader initialized with `indiaManifest`. -/
def indiaLoader : ChunkLoader :=
  ChunkLoader.init indiaManifest

/-- A catalog with one entry for domain `"d"` carrying the block pattern
`/a/`. -/
def oneRuleCatalog : List (String × SiteConfig) :=
  [("n1", { domain := some "d", block_regex := some (.re reA) })]

/-- The indexes and regex cache after `buildIndexes(nytCatalog)` from an empty
index and a fresh cache — the state of the spec's `shouldBlock` scenario. -/
def nytBuilt : SiteIndexes × RegexCache :=
  buildIndexes noNewRE ({}, RegexCache.new) nytCatalog

/-- The indexes and cache after `buildIndexes(oneRuleCatalog)` from an empty
index over the poisoned one-slot cache. -/
def poisonedBuilt : SiteIndexes × RegexCache :=
  buildIndexes noNewRE ({}, rcPoisoned) oneRuleCatalog

/-- The three C4 feature-population properties, bundled as a predicate on
states. -/
def FeatP (cfg : SiteConfig) (d : String) (st : SiteIndexes × RegexCache) : Prop :=
  (uaTruthy cfg.useragent = true →
    (lookupKV d st.1.botUserAgents).isSome = true) ∧
  ((cfg.allow_cookies = true ∨ cfg.remove_cookies = true ∨
      strTruthy cfg.remove_cookies_select_hold = true ∨
      strTruthy cfg.remove_cookies_select_drop = true) →
    (lookupKV d st.1.cookieRules).isSome = true) ∧
  (∀ rb, cfg.block_regex = some (.re rb) →
    ∃ l, lookupKV d st.1.blockRules = some l ∧ l ≠ [])

/-! ## Catalog characterisations (used to reason about `buildIndexes`) -/

/-- Does this entry register `k` in `domainMap`?  (Non-meta, no group, and a
non-empty `domain` equal to `k`.) -/
def domainRegisters (cfg : SiteConfig) (k : String) : Bool :=
  if isMetaEntry cfg = false ∧ cfg.group = none ∧ cfg.domain = some k ∧ k ≠ "" then true
  else false

/-- Does this entry register `k` in `groupMap`?  (Non-meta and `k` a member
of its group.) -/
def groupRegisters (cfg : SiteConfig) (k : String) : Bool :=
  if isMetaEntry cfg = false ∧ (∃ g, cfg.group = some g ∧ k ∈ g) then true
  else false

/-- Does this entry register `k` in `indexedDomains`? -/
def entryIndexes (cfg : SiteConfig) (k : String) : Bool :=
  groupRegisters cfg k || domainRegisters cfg k

/-- The binding `buildIndexes` leaves in `domainMap` for key `k`, computed
from the catalog alone (later entries override earlier ones). -/
def catDomain (k : String) : List (String × SiteConfig) → Option SiteConfig
  | [] => none
  | (_, cfg) :: t =>
    match catDomain k t with
    | some v => some v
    | none => if domainRegisters cfg k then some cfg else none

/-- The binding `buildIndexes` leaves in `groupMap` for key `k`. -/
def catGroupName (k : String) : List (String × SiteConfig) → Option String
  | [] => none
  | (nm, cfg) :: t =>
    match catGroupName k t with
    | some v => some v
    | none => if groupRegisters cfg k then some nm else none

/-- Does this entry (named `nm`) register the key `k` in `groupConfigs`? -/
def groupCfgRegisters (cfg : SiteConfig) (nm k : String) : Bool :=
  if isMetaEntry cfg = false ∧ cfg.group ≠ none ∧ nm = k then true else false

/-- The binding `buildIndexes` leaves in `groupConfigs` for the site name
`nm`. -/
def catGroupCfg (nm : String) : List (String × SiteConfig) → Option SiteConfig
  | [] => none
  | (nm2, cfg) :: t =>
    match catGroupCfg nm t with
    | some v => some v
    | none => if groupCfgRegisters cfg nm2 nm then some cfg else none

/-- Whether the catalog registers `k` in `indexedDomains`. -/
def catIndexed (k : String) : List (String × SiteConfig) → Bool
  | [] => false
  | (_, cfg) :: t => catIndexed k t || entryIndexes cfg k

/-! ## Accuracy predicates for the regex result cache -/

/-- The compiled-pattern cache maps each of the given regexes' keys to the
regex itself (no aliasing). -/
def CleanFor (rc : RegexCache) (rules : List JSRegExp) : Prop :=
  ∀ r ∈ rules, ∀ v, lookupKV (r.source ++ r.flags) rc.cache = some v → v = r

/-- Every result-cache entry under one of the given regexes' keys is that
regex's direct evaluation at `url`. -/
def AccFor (rc : RegexCache) (rules : List JSRegExp) (url : String) : Prop :=
  ∀ r ∈ rules, ∀ k v, (k, v) ∈ rc.matchResults → k = resultKey r url →
    v = r.testFn url

/-- `source ++ flags` determines the regex among the given rules. -/
def KeyInj (rules : List JSRegExp) : Prop :=
  ∀ r ∈ rules, ∀ r2 ∈ rules, r.source ++ r.flags = r2.source ++ r2.flags → r = r2

/-- Rules sharing a `source` agree at `url` (true of real regexes whose
behaviour is determined by source and flags, flags being irrelevant to a
fixed subject only when sources agree on it; collisions between rules with
equal sources but different behaviour are what this excludes). -/
def SrcCons (rules : List JSRegExp) (url : String) : Prop :=
  ∀ r ∈ rules, ∀ r2 ∈ rules, r.source = r2.source → r.testFn url = r2.testFn url

/-- All block patterns of a catalog are `RegExp` objects (regex literals), as
in the real site catalogs. -/
def AllReBlocks (catalog : List (String × SiteConfig)) : Prop :=
  ∀ e ∈ catalog, ∀ p, (e : String × SiteConfig).2.block_regex = some p →
    ∃ rb, p = JSPattern.re rb

/-! # Theorems

General lemmas about the embedded operations first, then one theorem per
claim (with its witness or counterexample). -/

/-! ## Association-list lemmas -/

theorem lookupKV_setKV_self {α : Type} (k : String) (v : α) (m : List (String × α)) :
    lookupKV k (setKV k v m) = some v := by
  induction m with
  | nil => simp [setKV, lookupKV]
  | cons h t ih =>
    obtain ⟨k', v'⟩ := h
    by_cases hk : k' = k
    · simp [setKV, hk, lookupKV]
    · simp [setKV, hk, lookupKV, ih]

theorem lookupKV_setKV_ne {α : Type} {k k' : String} (v : α) (m : List (String × α))
    (h : k' ≠ k) : lookupKV k' (setKV k v m) = lookupKV k' m := by
  induction m with
  | nil => simp [setKV, lookupKV, Ne.symm h]
  | cons hd t ih =>
    obtain ⟨k0, v0⟩ := hd
    by_cases hk : k0 = k
    · subst hk
      simp [setKV, lookupKV, Ne.symm h]
    · simp [setKV, hk, lookupKV]
      by_cases hk' : k0 = k'
      · simp [hk']
      · simp [hk', ih]

theorem mem_of_lookupKV {α : Type} {k : String} {v : α} {m : List (String × α)}
    (h : lookupKV k m = some v) : (k, v) ∈ m := by
  induction m with
  | nil => simp [lookupKV] at h
  | cons hd t ih =>
    obtain ⟨k0, v0⟩ := hd
    by_cases hk : k0 = k
    · subst hk
      simp [lookupKV] at h
      simp [h]
    · simp [lookupKV, hk] at h
      exact List.mem_cons_of_mem _ (ih h)

theorem mem_setKV {α : Type} {a : String} {b : α} {k : String} {v : α}
    {m : List (String × α)} (h : (a, b) ∈ setKV k v m) :
    (a, b) ∈ m ∨ (a = k ∧ b = v) := by
  induction m with
  | nil =>
    simp [setKV] at h
    exact Or.inr h
  | cons hd t ih =>
    obtain ⟨k0, v0⟩ := hd
    by_cases hk : k0 = k
    · subst hk
      simp [setKV] at h
      rcases h with ⟨ha, hb⟩ | h
      · exact Or.inr ⟨ha, hb⟩
      · exact Or.inl (List.mem_cons_of_mem _ h)
    · simp [setKV, hk] at h
      rcases h with ⟨ha, hb⟩ | h
      · exact Or.inl (by simp [ha, hb])
      · rcases ih h with h' | h'
        · exact Or.inl (List.mem_cons_of_mem _ h')
        · exact Or.inr h'

/-- When the key is absent, `Map.set` is an append at the end. -/
theorem setKV_eq_append {α : Type} {k : String} (v : α) {m : List (String × α)}
    (h : lookupKV k m = none) : setKV k v m = m ++ [(k, v)] := by
  induction m with
  | nil => simp [setKV]
  | cons hd t ih =>
    obtain ⟨k0, v0⟩ := hd
    by_cases hk : k0 = k
    · simp [lookupKV, hk] at h
    · simp [lookupKV, hk] at h
      simp [setKV, hk, ih h]

theorem lookupKV_append {α : Type} (k : String) (l1 l2 : List (String × α)) :
    lookupKV k (l1 ++ l2) = ((lookupKV k l1).rec (lookupKV k l2) fun v => some v) := by
  induction l1 with
  | nil => simp [lookupKV]
  | cons hd t ih =>
    obtain ⟨k0, v0⟩ := hd
    by_cases hk : k0 = k
    · simp [lookupKV, hk]
    · simp [lookupKV, hk, ih]

theorem contains_addSet_self (d : String) (s : List String) :
    (addSet d s).contains d = true := by
  unfold addSet
  split
  · assumption
  · simp

theorem contains_addSet_mono {e : String} (d : String) {s : List String}
    (h : s.contains e = true) : (addSet d s).contains e = true := by
  unfold addSet
  split
  · exact h
  · simp_all

theorem mem_addSet_self (d : String) (s : List String) : d ∈ addSet d s := by
  have h := contains_addSet_self d s
  simpa using h

theorem mem_addSet_mono {e : String} (d : String) {s : List String} (h : e ∈ s) :
    e ∈ addSet d s := by
  have h2 := contains_addSet_mono (e := e) d (s := s) (by simpa using h)
  simpa using h2

/-! ## UsageLearner lemmas -/

/-- The result state of an enabled `trackVisit` call, in closed form. -/
theorem trackVisit_enabled_fst (u : UsageLearner) (d : String) (he : u.enabled = true) :
    (u.trackVisit d).1 =
      (let count := (lookupKV d u.visitCounts).getD 0 + 1
       if u.promotionThreshold ≤ count ∧ ¬ d ∈ u.promotedSites then
         { u with visitCounts := setKV d count u.visitCounts,
                  promotedSites := addSet d u.promotedSites }
       else { u with visitCounts := setKV d count u.visitCounts }) := by
  unfold UsageLearner.trackVisit
  simp only [he, Bool.not_true, Bool.false_eq_true, if_false]
  split
  · rename_i hcond
    simp only [Bool.and_eq_true, decide_eq_true_eq, Bool.not_eq_true] at hcond
    rw [if_pos]
    · rfl
    · refine ⟨hcond.1, ?_⟩
      simpa using hcond.2
  · rename_i hcond
    simp only [Bool.and_eq_true, decide_eq_true_eq, Bool.not_eq_true, not_and] at hcond
    rw [if_neg]
    intro hc
    rcases hc with ⟨hc1, hc2⟩
    have h2 := hcond hc1
    exact hc2 (by simpa using h2)

/-- `trackVisit` never removes a domain from the promoted set. -/
theorem trackVisit_promoted_mono {u : UsageLearner} {d : String} (dv : String)
    (h : u.isPromoted d = true) : ((u.trackVisit dv).1).isPromoted d = true := by
  by_cases he : u.enabled = true
  · rw [trackVisit_enabled_fst u dv he]
    unfold UsageLearner.isPromoted at *
    simp only
    split
    · simpa using contains_addSet_mono dv h
    · exact h
  · have heF : u.enabled = false := by
      cases hu : u.enabled
      · rfl
      · exact absurd hu he
    unfold UsageLearner.trackVisit
    simp [heF, h]

/-- The state invariant of `n` fresh-start `trackVisit` calls for one domain:
the learner stays enabled at the default threshold 5, the counter equals `n`,
and the domain is promoted exactly when `n` has reached 5. -/
theorem trackN_fresh_state (d : String) (n : Nat) :
    ((UsageLearner.new).trackN d n).enabled = true ∧
    ((UsageLearner.new).trackN d n).promotionThreshold = 5 ∧
    ((UsageLearner.new).trackN d n).getVisitCount d = n ∧
    ((UsageLearner.new).trackN d n).isPromoted d = decide (5 ≤ n) := by
  induction n with
  | zero =>
    simp [UsageLearner.trackN, UsageLearner.new, UsageLearner.getVisitCount,
      UsageLearner.isPromoted, lookupKV]
  | succ n ih =>
    obtain ⟨hen, hth, hcnt, hprom⟩ := ih
    have hcnt2 : (lookupKV d ((UsageLearner.new).trackN d n).visitCounts).getD 0 = n := hcnt
    have hstep : (UsageLearner.new).trackN d (n + 1) =
        (((UsageLearner.new).trackN d n).trackVisit d).1 := rfl
    rw [hstep, trackVisit_enabled_fst _ d hen]
    simp only [hcnt2, hth]
    unfold UsageLearner.isPromoted at hprom
    split
    · rename_i hcond
      refine ⟨hen, rfl, ?_, ?_⟩
      · unfold UsageLearner.getVisitCount
        simp [lookupKV_setKV_self]
      · unfold UsageLearner.isPromoted
        simp only
        have h5 : 5 ≤ n + 1 := hcond.1
        simp [contains_addSet_self, mem_addSet_self, h5]
    · rename_i hcond
      rw [not_and, Classical.not_not] at hcond
      refine ⟨hen, rfl, ?_, ?_⟩
      · unfold UsageLearner.getVisitCount
        simp [lookupKV_setKV_self]
      · unfold UsageLearner.isPromoted
        simp only
        by_cases h5 : 5 ≤ n + 1
        · have hmem := hcond h5
          have hc : ((UsageLearner.new).trackN d n).promotedSites.contains d = true := by
            simpa using hmem
          rw [hc]
          simp [h5]
        · have h5n : ¬ 5 ≤ n := fun hh => h5 (Nat.le_succ_of_le hh)
          rw [hprom]
          simp [h5n, h5]

/-! ## Claim C8 -/

/-- C8: promotion is monotone — `isPromoted` survives any further
`trackVisit` call — and, from a fresh learner (default threshold 5), a
domain's `isPromoted` first becomes and stays true exactly when its visit
count reaches 5. -/
theorem C8_promotion_monotone_threshold :
    (∀ (u : UsageLearner) (d dv : String), u.isPromoted d = true →
        ((u.trackVisit dv).1).isPromoted d = true) ∧
    (∀ (d : String) (n : Nat),
        ((UsageLearner.new).trackN d n).isPromoted d = decide (5 ≤ n)) :=
  ⟨fun _ _ dv h => trackVisit_promoted_mono dv h,
   fun d n => (trackN_fresh_state d n).2.2.2⟩

theorem C8_promotion_monotone_threshold_witness :
    ((((UsageLearner.new).trackN "a.com" 5).trackVisit "b.com").1).isPromoted "a.com" = true ∧
    ((UsageLearner.new).trackN "a.com" 4).isPromoted "a.com" = false ∧
    ((UsageLearner.new).trackN "a.com" 5).isPromoted "a.com" = true :=
  ⟨C8_promotion_monotone_threshold.1 _ "a.com" "b.com" (by decide),
   by decide, by decide⟩

/-! ## Claim C10 -/

/-- C10: with usage learning disabled, `trackVisit` is a complete no-op — the
state is unchanged, no storage write is issued, and `getVisitCount` /
`isPromoted` answer as before. -/
theorem C10_trackVisit_disabled_noop (u : UsageLearner) (d : String)
    (h : u.enabled = false) :
    u.trackVisit d = (u, []) ∧
    (∀ e, ((u.trackVisit d).1).getVisitCount e = u.getVisitCount e) ∧
    (∀ e, ((u.trackVisit d).1).isPromoted e = u.isPromoted e) := by
  have h1 : u.trackVisit d = (u, []) := by
    unfold UsageLearner.trackVisit
    simp [h]
  exact ⟨h1, fun e => by rw [h1], fun e => by rw [h1]⟩

theorem C10_trackVisit_disabled_noop_witness :
    (((UsageLearner.new).trackN "a.com" 3).setEnabled false).enabled = false ∧
    (((UsageLearner.new).trackN "a.com" 3).setEnabled false).trackVisit "a.com" =
      ((((UsageLearner.new).trackN "a.com" 3).setEnabled false), []) :=
  ⟨rfl, (C10_trackVisit_disabled_noop _ "a.com" rfl).1⟩

/-! ## Claim C9 -/

/-- C9: of two `ensureChunkLoaded` calls racing for the same unloaded,
not-yet-loading partition, the first begins the single load (publishing the
in-flight promise in `loading`), and the second's synchronous prefix finds
that promise and awaits it — it starts no second fetch and leaves the state
untouched. -/
theorem C9_ensure_coalesces (hasDomainFn : String → Bool) (cl : ChunkLoader)
    (d1 d2 c : String) (p q : Nat)
    (h1 : hasDomainFn d1 = false) (h2 : hasDomainFn d2 = false)
    (hm1 : lookupKV d1 cl.siteToChunkMap = some c)
    (hm2 : lookupKV d2 cl.siteToChunkMap = some c)
    (hld : cl.loadedChunks.contains c = false)
    (hfl : lookupKV c cl.loading = none) :
    (cl.ensureStep hasDomainFn d1 p).1 = .startedLoad p ∧
    ((cl.ensureStep hasDomainFn d1 p).2.ensureStep hasDomainFn d2 q).1 = .awaitShared p ∧
    ((cl.ensureStep hasDomainFn d1 p).2.ensureStep hasDomainFn d2 q).2 =
      (cl.ensureStep hasDomainFn d1 p).2 := by
  have hld2 : c ∉ cl.loadedChunks := by simpa using hld
  have e1 : cl.ensureStep hasDomainFn d1 p =
      (.startedLoad p, { cl with loading := setKV c p cl.loading }) := by
    unfold ChunkLoader.ensureStep
    simp [h1, hm1, hld2, hfl]
  have e2 : ({ cl with loading := setKV c p cl.loading } : ChunkLoader).ensureStep
      hasDomainFn d2 q = (.awaitShared p, { cl with loading := setKV c p cl.loading }) := by
    unfold ChunkLoader.ensureStep
    simp [h2, hm2, hld2, lookupKV_setKV_self]
  rw [e1]
  exact ⟨rfl, by rw [e2], by rw [e2]⟩

theorem C9_ensure_coalesces_witness :
    (indiaLoader.ensureStep (fun _ => false) "example.in" 0).1 = .startedLoad 0 ∧
    ((indiaLoader.ensureStep (fun _ => false) "example.in" 0).2.ensureStep
      (fun _ => false) "example2.in" 1).1 = .awaitShared 0 :=
  have h := C9_ensure_coalesces (fun _ => false) indiaLoader "example.in" "example2.in"
    "india" 0 1 rfl rfl (by decide) (by decide) (by decide) (by decide)
  ⟨h.1, h.2.1⟩

/-! ## Claim C1 -/

/-- C1 (evaluation of the code at the failing input): `"example.in"` is known
to the manifest, yet when every import attempt of its partition fails,
`ensureChunkLoaded` returns `false` — `ChunkLoader.loadChunk` has no
full-catalog fallback after exhausting its retries, contradicting the claim's
(and the repository documentation's) guarantee of `true`. -/
theorem C1_ensure_no_fallback :
    lookupKV "example.in" indiaLoader.siteToChunkMap = some "india" ∧
    (ChunkLoader.ensureChunkLoadedSeq noNewRE (fun _ _ => .fail)
      indiaLoader {} (RegexCache.new) "example.in").1 = false := by
  exact ⟨by decide, by decide⟩

/-! ## Claim C2 -/

/-- Pointwise agreement of `applyHeaders`' filter predicate with the
spec-modelled removal set. -/
theorem headerKeep_eq (rule : HeaderRule) (h : HTTPHeader) :
    (if rule.userAgent.isSome && (h.name.toLower == "user-agent") then false
     else if rule.referer.isSome && (h.name.toLower == "referer") then false
     else if rule.randomIP.isSome && (h.name.toLower == "x-forwarded-for") then false
     else true) = !((removedNames rule).contains h.name.toLower) := by
  obtain ⟨ua, ref, ip⟩ := rule
  cases ua <;> cases ref <;> cases ip <;>
    by_cases n1 : h.name.toLower = "user-agent" <;>
    by_cases n2 : h.name.toLower = "referer" <;>
    by_cases n3 : h.name.toLower = "x-forwarded-for" <;>
    simp_all [removedNames]

/-- C2 (intended behaviour of the source; see the `applyHeaders` doc comment
for the duplicate-declaration bug): `applyHeaders` returns the input
unchanged when no rule exists for the domain, and otherwise removes every
prior header whose lower-cased name belongs to a carried feature and appends
exactly one replacement header per carried feature, the forwarded address
being the pool entry at index `now % poolSize`. -/
theorem C2_applyHeaders_matches_spec (now : Nat) (rules : List (String × HeaderRule))
    (domain : String) (headers : List HTTPHeader) :
    applyHeaders now rules domain headers = applyHeadersSpec now rules domain headers := by
  unfold applyHeaders applyHeadersSpec
  cases hr : lookupKV domain rules with
  | none => rfl
  | some rule =>
    simp only
    have hfil : headers.filter (fun h =>
        if rule.userAgent.isSome && (h.name.toLower == "user-agent") then false
        else if rule.referer.isSome && (h.name.toLower == "referer") then false
        else if rule.randomIP.isSome && (h.name.toLower == "x-forwarded-for") then false
        else true) =
        headers.filter (fun h => !((removedNames rule).contains h.name.toLower)) := by
      apply List.filter_congr
      intro h _
      exact headerKeep_eq rule h
    rw [hfil]
    unfold appendedHeaders
    cases rule.userAgent <;> cases rule.referer <;> cases rule.randomIP <;>
      simp [List.append_assoc]

/-! ## Claim C3 -/

/-- `compile` touches only the compiled-pattern cache: the result cache and
its bound are unchanged. -/
theorem compile_preserves (newRE : String → Option JSRegExp) (c : RegexCache)
    (p : JSPattern) :
    ((RegexCache.compile newRE c p).2).matchResults = c.matchResults ∧
    ((RegexCache.compile newRE c p).2).maxCacheSize = c.maxCacheSize := by
  cases p with
  | re r =>
    by_cases hk : hasKV (r.source ++ r.flags) c.cache <;>
      simp [RegexCache.compile, hk]
  | str s =>
    by_cases hk : hasKV s c.cache
    · simp [RegexCache.compile, hk]
    · cases hre : newRE s <;> simp [RegexCache.compile, hk, hre]

/-- C3 amended: `test(p, url)` returns the direct evaluation of the compiled
form of `p` against `url` provided the result cache holds no colliding entry
under the key `compiled.source ++ "::" ++ url` — i.e. the consulted entry, if
any, is the direct evaluation itself.  (Unrestricted cache states falsify the
claim: see `C3_collision_cex`.) -/
theorem C3_test_accurate (newRE : String → Option JSRegExp) (c : RegexCache)
    (p : JSPattern) (url : String) (compiled : JSRegExp)
    (hc : (RegexCache.compile newRE c p).1 = some compiled)
    (hacc : ∀ v, lookupKV (resultKey compiled url) c.matchResults = some v →
      v = compiled.testFn url) :
    (RegexCache.test newRE c p url).1 = compiled.testFn url := by
  unfold RegexCache.test
  rcases hcp : RegexCache.compile newRE c p with ⟨ores, c2⟩
  have hm : c2.matchResults = c.matchResults := by
    have hpre := (compile_preserves newRE c p).1
    rw [hcp] at hpre
    exact hpre
  rw [hcp] at hc
  simp only at hc
  subst hc
  simp only
  rw [hm]
  cases hl : lookupKV (compiled.source ++ "::" ++ url) c.matchResults with
  | some v => exact hacc v hl
  | none => rfl

theorem C3_test_accurate_witness :
    (RegexCache.compile noNewRE (RegexCache.new) (.re reA)).1 = some reA ∧
    (∀ v, lookupKV (resultKey reA "xya") (RegexCache.new).matchResults = some v →
      v = reA.testFn "xya") ∧
    (RegexCache.test noNewRE (RegexCache.new) (.re reA) "xya").1 = reA.testFn "xya" :=
  ⟨rfl, fun v h => by simp [RegexCache.new, lookupKV] at h,
   C3_test_accurate noNewRE (RegexCache.new) (.re reA) "xya" reA rfl
     (fun v h => by simp [RegexCache.new, lookupKV] at h)⟩

/-- C3 counterexample: after the genuine call `test(/a::b/, "a")` on a fresh
one-slot cache, the state holds `"a::b::a" ↦ false`.  `test(/a/, "b::a")`
then computes the same key, hits that foreign entry, and returns `false`,
though direct evaluation of `/a/` against `"b::a"` is `true` — the claim's
"cache state notwithstanding" fails. -/
theorem C3_collision_cex :
    (RegexCache.compile noNewRE rcPoisoned (.re reA)).1 = some reA ∧
    reA.testFn "b::a" = true ∧
    (RegexCache.test noNewRE rcPoisoned (.re reA) "b::a").1 = false :=
  ⟨rfl, by decide, by decide⟩

/-! ## Claim C5 -/

theorem lookupKV_evictFirst_none {k : String} {m : List (String × Bool)}
    (h : lookupKV k m = none) : lookupKV k (evictFirst m) = none := by
  cases m with
  | nil => rfl
  | cons hd t =>
    obtain ⟨k0, v0⟩ := hd
    by_cases hk : k0 = k
    · simp [lookupKV, hk] at h
    · simp [lookupKV, hk] at h
      exact h

/-- `compile` on a `RegExp` argument, in closed form. -/
theorem compile_re_eq (newRE : String → Option JSRegExp) (c : RegexCache)
    (r : JSRegExp) :
    RegexCache.compile newRE c (.re r) =
      (if hasKV (r.source ++ r.flags) c.cache then
        (lookupKV (r.source ++ r.flags) c.cache, c)
      else
        (some r, { c with cache := setKV (r.source ++ r.flags) r c.cache })) := by
  by_cases hk : hasKV (r.source ++ r.flags) c.cache <;>
    simp [RegexCache.compile, hk, lookupKV_setKV_self]

/-- A `test` call that misses the result cache evaluates the pattern, evicts
the oldest entry when the bound is reached, and appends the new entry. -/
theorem test_miss_append_eq (newRE : String → Option JSRegExp)
    (c c2 : RegexCache) (p : JSPattern) (url : String) (compiled : JSRegExp)
    (hcp : RegexCache.compile newRE c p = (some compiled, c2))
    (hmiss : lookupKV (compiled.source ++ "::" ++ url) c2.matchResults = none) :
    RegexCache.test newRE c p url =
      (compiled.testFn url,
       { c2 with matchResults :=
           (if c2.maxCacheSize ≤ c2.matchResults.length then evictFirst c2.matchResults
            else c2.matchResults) ++ [(compiled.source ++ "::" ++ url, compiled.testFn url)] }) := by
  unfold RegexCache.test
  rw [hcp]
  simp only
  rw [hmiss]
  simp only
  rw [setKV_eq_append]
  split
  · exact lookupKV_evictFirst_none hmiss
  · exact hmiss

/-- A `test` call that hits the result cache returns the cached value and
leaves the state as `compile` left it. -/
theorem test_hit_eq (newRE : String → Option JSRegExp)
    (c c2 : RegexCache) (p : JSPattern) (url : String) (compiled : JSRegExp) (b : Bool)
    (hcp : RegexCache.compile newRE c p = (some compiled, c2))
    (hhit : lookupKV (compiled.source ++ "::" ++ url) c2.matchResults = some b) :
    RegexCache.test newRE c p url = (b, c2) := by
  unfold RegexCache.test
  rw [hcp]
  simp only
  rw [hhit]

/-- One `test` call keeps the result-cache entry count within the bound and
leaves the bound itself unchanged. -/
theorem test_preserves_bound (newRE : String → Option JSRegExp) (c : RegexCache)
    (p : JSPattern) (url : String) (hB : 1 ≤ c.maxCacheSize)
    (hlen : c.matchResults.length ≤ c.maxCacheSize) :
    ((RegexCache.test newRE c p url).2).matchResults.length ≤ c.maxCacheSize ∧
    ((RegexCache.test newRE c p url).2).maxCacheSize = c.maxCacheSize := by
  rcases hcp : RegexCache.compile newRE c p with ⟨ores, c2⟩
  have hm : c2.matchResults = c.matchResults := by
    have hpre := (compile_preserves newRE c p).1
    rw [hcp] at hpre
    exact hpre
  have hmax : c2.maxCacheSize = c.maxCacheSize := by
    have hpre := (compile_preserves newRE c p).2
    rw [hcp] at hpre
    exact hpre
  cases ores with
  | none =>
    unfold RegexCache.test
    rw [hcp]
    simp only
    rw [hm]
    exact ⟨hlen, hmax⟩
  | some compiled =>
    cases hl : lookupKV (compiled.source ++ "::" ++ url) c2.matchResults with
    | some b =>
      rw [test_hit_eq newRE c c2 p url compiled b hcp hl]
      rw [hm]
      exact ⟨hlen, hmax⟩
    | none =>
      rw [test_miss_append_eq newRE c c2 p url compiled hcp hl]
      simp only [List.length_append, List.length_cons, List.length_nil]
      constructor
      · rw [hm, hmax]
        by_cases hfull : c.maxCacheSize ≤ c.matchResults.length
        · rw [if_pos hfull]
          have heq : c.matchResults.length = c.maxCacheSize :=
            Nat.le_antisymm hlen hfull
          cases hmr : c.matchResults with
          | nil =>
            rw [hmr] at heq
            simp only [List.length_nil] at heq
            omega
          | cons e0 t =>
            simp only [evictFirst]
            rw [hmr] at heq
            simp only [List.length_cons] at heq
            omega
        · rw [if_neg hfull]
          omega
      · exact hmax

/-- Any sequence of `test` calls keeps the result-cache entry count within
the bound. -/
theorem runTests_bound (newRE : String → Option JSRegExp)
    (l : List (JSPattern × String)) (c : RegexCache) (hB : 1 ≤ c.maxCacheSize)
    (hlen : c.matchResults.length ≤ c.maxCacheSize) :
    (RegexCache.runTests newRE c l).matchResults.length ≤ c.maxCacheSize ∧
    (RegexCache.runTests newRE c l).maxCacheSize = c.maxCacheSize := by
  induction l generalizing c with
  | nil => exact ⟨hlen, rfl⟩
  | cons pu rest ih =>
    obtain ⟨p, url⟩ := pu
    have hstep := test_preserves_bound newRE c p url hB hlen
    have hmax := hstep.2
    have hrec := ih (RegexCache.test newRE c p url).2
      (by rw [hmax]; exact hB) (by rw [hmax]; exact hstep.1)
    unfold RegexCache.runTests
    rw [hmax] at hrec
    exact hrec

/-- FIFO characterisation of the result cache: starting from a state whose
result cache misses all of the distinct-keyed pairs to be tested and whose
compiled-pattern cache binds patterns faithfully, testing the pairs in order
leaves exactly the last `maxCacheSize` inserted entries, oldest evicted
first. -/
theorem runTests_fifo_general (newRE : String → Option JSRegExp)
    (pats : List JSRegExp) (pairs : List (JSRegExp × String)) (c : RegexCache)
    (hB : 1 ≤ c.maxCacheSize)
    (hlen : c.matchResults.length ≤ c.maxCacheSize)
    (hpats : ∀ pr ∈ pairs, pr.1 ∈ pats)
    (hck : ∀ r ∈ pats, ∀ r2 ∈ pats,
      r.source ++ r.flags = r2.source ++ r2.flags → r = r2)
    (hcache : ∀ k r, lookupKV k c.cache = some r → r ∈ pats ∧ k = r.source ++ r.flags)
    (hdisj : ∀ pr ∈ pairs, lookupKV (resultKey pr.1 pr.2) c.matchResults = none)
    (hkeys : (pairs.map fun pr => resultKey pr.1 pr.2).Nodup) :
    (RegexCache.runTests newRE c
        (pairs.map fun pr => (JSPattern.re pr.1, pr.2))).matchResults =
      (c.matchResults ++ pairs.map fun pr => entryOf pr.1 pr.2).drop
        (c.matchResults.length + pairs.length - c.maxCacheSize) := by
  induction pairs generalizing c with
  | nil =>
    simp only [List.map_nil, RegexCache.runTests, List.append_nil, List.length_nil]
    rw [Nat.add_zero, Nat.sub_eq_zero_of_le hlen, List.drop_zero]
  | cons pr rest ih =>
    obtain ⟨r, url⟩ := pr
    have hrpat : r ∈ pats := hpats (r, url) (List.mem_cons_self _ _)
    -- the compile step returns `r` itself and only extends the pattern cache
    obtain ⟨cache2, hcomp, hcache2⟩ : ∃ cache2,
        RegexCache.compile newRE c (.re r) = (some r, { c with cache := cache2 }) ∧
        (∀ k r2, lookupKV k cache2 = some r2 →
          r2 ∈ pats ∧ k = r2.source ++ r2.flags) := by
      rw [compile_re_eq]
      by_cases hk : hasKV (r.source ++ r.flags) c.cache
      · rw [if_pos hk]
        unfold hasKV at hk
        cases hl : lookupKV (r.source ++ r.flags) c.cache with
        | none =>
          rw [hl] at hk
          simp at hk
        | some r2 =>
          obtain ⟨hr2, hkey⟩ := hcache _ _ hl
          have hr2r : r2 = r := hck r2 hr2 r hrpat hkey.symm
          refine ⟨c.cache, ?_, hcache⟩
          rw [hr2r]
      · rw [if_neg hk]
        refine ⟨setKV (r.source ++ r.flags) r c.cache, rfl, ?_⟩
        intro k r2 hlk
        by_cases hkk : k = r.source ++ r.flags
        · subst hkk
          rw [lookupKV_setKV_self] at hlk
          injection hlk with h
          subst h
          exact ⟨hrpat, rfl⟩
        · rw [lookupKV_setKV_ne _ _ hkk] at hlk
          exact hcache k r2 hlk
    have hmiss : lookupKV (resultKey r url) c.matchResults = none :=
      hdisj (r, url) (List.mem_cons_self _ _)
    have hstep := test_miss_append_eq newRE c { c with cache := cache2 }
      (.re r) url r hcomp hmiss
    have hkeytail : ∀ q ∈ rest, resultKey r url ≠ resultKey q.1 q.2 := by
      intro q hq hcon
      have hnod := hkeys
      simp only [List.map_cons, List.nodup_cons] at hnod
      exact hnod.1 (hcon ▸ List.mem_map_of_mem _ hq)
    have hnodtail : (rest.map fun pr => resultKey pr.1 pr.2).Nodup := by
      have hnod := hkeys
      simp only [List.map_cons, List.nodup_cons] at hnod
      exact hnod.2
    simp only [List.map_cons]
    show (RegexCache.runTests newRE (RegexCache.test newRE c (.re r) url).2
        (rest.map fun pr => (JSPattern.re pr.1, pr.2))).matchResults = _
    rw [hstep]
    simp only
    by_cases hfull : c.maxCacheSize ≤ c.matchResults.length
    · -- eviction: the head entry of the result cache is dropped
      have heq : c.matchResults.length = c.maxCacheSize := Nat.le_antisymm hlen hfull
      cases hmr : c.matchResults with
      | nil =>
        rw [hmr] at heq
        simp only [List.length_nil] at heq
        omega
      | cons e0 t =>
        rw [if_pos (show c.maxCacheSize ≤ (e0 :: t).length from hmr ▸ hfull)]
        simp only [evictFirst]
        have hlen2 : (t ++ [(r.source ++ "::" ++ url, r.testFn url)]).length ≤
            c.maxCacheSize := by
          simp only [List.length_append, List.length_cons, List.length_nil]
          rw [hmr] at heq
          simp only [List.length_cons] at heq
          omega
        have hdisj2 : ∀ q ∈ rest,
            lookupKV (resultKey q.1 q.2)
              (t ++ [(r.source ++ "::" ++ url, r.testFn url)]) = none := by
          intro q hq
          have hq0 : lookupKV (resultKey q.1 q.2) c.matchResults = none :=
            hdisj q (List.mem_cons_of_mem _ hq)
          rw [hmr] at hq0
          have ht : lookupKV (resultKey q.1 q.2) t = none := by
            revert hq0
            obtain ⟨k0, v0⟩ := e0
            by_cases hk0 : k0 = resultKey q.1 q.2 <;> simp [lookupKV, hk0]
          rw [lookupKV_append, ht]
          have hne2 : ¬ (r.source ++ "::" ++ url = resultKey q.1 q.2) := hkeytail q hq
          simp [lookupKV, hne2]
        have hres := ih
          { cache := cache2,
            matchResults := t ++ [(r.source ++ "::" ++ url, r.testFn url)],
            maxCacheSize := c.maxCacheSize }
          hB hlen2
          (fun q hq => hpats q (List.mem_cons_of_mem _ hq))
          hcache2 hdisj2 hnodtail
        simp only at hres
        rw [hres]
        have hentry : (r.source ++ "::" ++ url, r.testFn url) = entryOf r url := rfl
        rw [hentry]
        rw [hmr] at heq
        simp only [List.length_cons] at heq
        simp only [List.length_append, List.length_cons, List.length_nil,
          List.cons_append, List.append_assoc, List.singleton_append, List.length_map]
        have hiL : t.length + 1 + rest.length - c.maxCacheSize = rest.length := by omega
        have hiR : t.length + 1 + (rest.length + 1) - c.maxCacheSize = rest.length + 1 := by
          omega
        rw [hiL, hiR, List.drop_succ_cons]
        simp
    · -- no eviction: plain append
      rw [if_neg hfull]
      have hlen2 : (c.matchResults ++ [(r.source ++ "::" ++ url, r.testFn url)]).length ≤
          c.maxCacheSize := by
        simp only [List.length_append, List.length_cons, List.length_nil]
        omega
      have hdisj2 : ∀ q ∈ rest,
          lookupKV (resultKey q.1 q.2)
            (c.matchResults ++ [(r.source ++ "::" ++ url, r.testFn url)]) = none := by
        intro q hq
        have hq0 : lookupKV (resultKey q.1 q.2) c.matchResults = none :=
          hdisj q (List.mem_cons_of_mem _ hq)
        rw [lookupKV_append, hq0]
        have hne2 : ¬ (r.source ++ "::" ++ url = resultKey q.1 q.2) := hkeytail q hq
        simp [lookupKV, hne2]
      have hres := ih
        { cache := cache2,
          matchResults := c.matchResults ++ [(r.source ++ "::" ++ url, r.testFn url)],
          maxCacheSize := c.maxCacheSize }
        hB hlen2
        (fun q hq => hpats q (List.mem_cons_of_mem _ hq))
        hcache2 hdisj2 hnodtail
      simp only at hres
      rw [hres]
      have hentry : (r.source ++ "::" ++ url, r.testFn url) = entryOf r url := rfl
      rw [hentry]
      have hlist : (c.matchResults ++ [entryOf r url]) ++
          rest.map (fun pr => entryOf pr.1 pr.2) =
          c.matchResults ++ entryOf r url :: rest.map (fun pr => entryOf pr.1 pr.2) := by
        simp
      rw [hlist]
      congr 1
      simp only [List.length_append, List.length_cons, List.length_nil,
        List.length_map]
      omega

/-- C5: from an empty result cache with bound `B ≥ 1`, (i) the entry count
never exceeds `B` after any sequence of `test` calls, and (ii) inserting
distinct-keyed `(pattern, url)` pairs retains exactly the last `B` entries in
insertion order — the evicted entries are exactly the earliest-inserted ones,
in insertion order. -/
theorem C5_eviction_bound_fifo (newRE : String → Option JSRegExp) :
    (∀ (l : List (JSPattern × String)) (B : Nat), 1 ≤ B →
      (RegexCache.runTests newRE (RegexCache.new B) l).matchResults.length ≤ B) ∧
    (∀ (B : Nat) (pairs : List (JSRegExp × String)), 1 ≤ B →
      (∀ pr ∈ pairs, ∀ qr ∈ pairs,
        pr.1.source ++ pr.1.flags = qr.1.source ++ qr.1.flags → pr.1 = qr.1) →
      (pairs.map fun pr => resultKey pr.1 pr.2).Nodup →
      (RegexCache.runTests newRE (RegexCache.new B)
          (pairs.map fun pr => (JSPattern.re pr.1, pr.2))).matchResults =
        (pairs.map fun pr => entryOf pr.1 pr.2).drop (pairs.length - B)) := by
  constructor
  · intro l B hB
    exact (runTests_bound newRE l (RegexCache.new B) hB (by simp [RegexCache.new])).1
  · intro B pairs hB hck hkeys
    have h := runTests_fifo_general newRE (pairs.map Prod.fst) pairs (RegexCache.new B)
      hB (by simp [RegexCache.new])
      (fun pr hpr => List.mem_map_of_mem _ hpr)
      (by
        intro r hr r2 hr2 hkey
        obtain ⟨pr, hpr, hpr2⟩ := List.mem_map.mp hr
        obtain ⟨qr, hqr, hqr2⟩ := List.mem_map.mp hr2
        subst hpr2
        subst hqr2
        exact hck pr hpr qr hqr hkey)
      (by intro k r h; simp [RegexCache.new, lookupKV] at h)
      (by intro pr hpr; simp [RegexCache.new, lookupKV])
      hkeys
    simpa [RegexCache.new] using h

theorem C5_eviction_bound_fifo_witness :
    (RegexCache.runTests noNewRE (RegexCache.new 2)
      [(.re reA, "u1"), (.re reA, "u2"), (.re reA, "u3")]).matchResults.length ≤ 2 ∧
    (RegexCache.runTests noNewRE (RegexCache.new 2)
        ([(reA, "u1"), (reA, "u2"), (reA, "u3")].map fun pr => (JSPattern.re pr.1, pr.2))).matchResults =
      ([(reA, "u1"), (reA, "u2"), (reA, "u3")].map fun pr => entryOf pr.1 pr.2).drop 1 := by
  constructor
  · exact (C5_eviction_bound_fifo noNewRE).1 _ 2 (by omega)
  · have h := (C5_eviction_bound_fifo noNewRE).2 2 [(reA, "u1"), (reA, "u2"), (reA, "u3")]
      (by omega)
      (by
        intro pr hpr qr hqr _
        have h1 : pr.1 = reA := by
          simp only [List.mem_cons, List.not_mem_nil, or_false] at hpr
          rcases hpr with h | h | h <;> rw [h]
        have h2 : qr.1 = reA := by
          simp only [List.mem_cons, List.not_mem_nil, or_false] at hqr
          rcases hqr with h | h | h <;> rw [h]
        rw [h1, h2])
      (by decide)
    simpa using h

/-! ## Generic fold and map lemmas -/

theorem lookup_isSome_setKV {α : Type} (k : String) (v : α) (m : List (String × α))
    (d : String) (h : (lookupKV d m).isSome = true) :
    (lookupKV d (setKV k v m)).isSome = true := by
  by_cases hk : d = k
  · subst hk
    rw [lookupKV_setKV_self]
    rfl
  · rw [lookupKV_setKV_ne _ _ hk]
    exact h

theorem foldl_preserve {σ α : Type} (f : σ → α → σ) (P : σ → Prop)
    (hmono : ∀ s b, P s → P (f s b)) :
    ∀ (l : List α) (s : σ), P s → P (List.foldl f s l)
  | [], _, h => h
  | b :: t, s, h => foldl_preserve f P hmono t (f s b) (hmono s b h)

theorem foldl_establish {σ α : Type} (f : σ → α → σ) (P : σ → Prop)
    (l : List α) (a : α) (ha : a ∈ l)
    (hest : ∀ s, P (f s a)) (hmono : ∀ s b, P s → P (f s b)) (s0 : σ) :
    P (List.foldl f s0 l) := by
  obtain ⟨l1, l2, rfl⟩ := List.append_of_mem ha
  rw [List.foldl_append, List.foldl_cons]
  exact foldl_preserve f P hmono l2 _ (hest _)

/-! ## Frame lemmas for the feature-indexing steps -/

theorem uaStep_frame (cfg : SiteConfig) (d : String) (idx : SiteIndexes) :
    (uaStep cfg d idx).domainMap = idx.domainMap ∧
    (uaStep cfg d idx).groupMap = idx.groupMap ∧
    (uaStep cfg d idx).groupConfigs = idx.groupConfigs ∧
    (uaStep cfg d idx).indexedDomains = idx.indexedDomains ∧
    (uaStep cfg d idx).cookieRules = idx.cookieRules ∧
    (uaStep cfg d idx).blockRules = idx.blockRules := by
  unfold uaStep
  cases cfg.useragent with
  | none => simp
  | some u => by_cases h : uaTruthy (some u) = true <;> simp [h]

theorem cookieTypeStep_frame (cfg : SiteConfig) (d : String) (idx : SiteIndexes) :
    (cookieTypeStep cfg d idx).domainMap = idx.domainMap ∧
    (cookieTypeStep cfg d idx).groupMap = idx.groupMap ∧
    (cookieTypeStep cfg d idx).groupConfigs = idx.groupConfigs ∧
    (cookieTypeStep cfg d idx).indexedDomains = idx.indexedDomains ∧
    (cookieTypeStep cfg d idx).botUserAgents = idx.botUserAgents ∧
    (cookieTypeStep cfg d idx).blockRules = idx.blockRules := by
  unfold cookieTypeStep
  by_cases h1 : cfg.allow_cookies = true
  · simp [h1]
  · by_cases h2 : cfg.remove_cookies = true <;> simp [h1, h2]

theorem cookieHoldStep_frame (cfg : SiteConfig) (d : String) (idx : SiteIndexes) :
    (cookieHoldStep cfg d idx).domainMap = idx.domainMap ∧
    (cookieHoldStep cfg d idx).groupMap = idx.groupMap ∧
    (cookieHoldStep cfg d idx).groupConfigs = idx.groupConfigs ∧
    (cookieHoldStep cfg d idx).indexedDomains = idx.indexedDomains ∧
    (cookieHoldStep cfg d idx).botUserAgents = idx.botUserAgents ∧
    (cookieHoldStep cfg d idx).blockRules = idx.blockRules := by
  unfold cookieHoldStep
  cases cfg.remove_cookies_select_hold with
  | none => simp
  | some v => by_cases h : v = "" <;> simp [h]

theorem cookieDropStep_frame (cfg : SiteConfig) (d : String) (idx : SiteIndexes) :
    (cookieDropStep cfg d idx).domainMap = idx.domainMap ∧
    (cookieDropStep cfg d idx).groupMap = idx.groupMap ∧
    (cookieDropStep cfg d idx).groupConfigs = idx.groupConfigs ∧
    (cookieDropStep cfg d idx).indexedDomains = idx.indexedDomains ∧
    (cookieDropStep cfg d idx).botUserAgents = idx.botUserAgents ∧
    (cookieDropStep cfg d idx).blockRules = idx.blockRules := by
  unfold cookieDropStep
  cases cfg.remove_cookies_select_drop with
  | none => simp
  | some v => by_cases h : v = "" <;> simp [h]

theorem blockStep_frame (newRE : String → Option JSRegExp) (cfg : SiteConfig)
    (d : String) (idx : SiteIndexes) (rc : RegexCache) :
    (blockStep newRE cfg d idx rc).1.domainMap = idx.domainMap ∧
    (blockStep newRE cfg d idx rc).1.groupMap = idx.groupMap ∧
    (blockStep newRE cfg d idx rc).1.groupConfigs = idx.groupConfigs ∧
    (blockStep newRE cfg d idx rc).1.indexedDomains = idx.indexedDomains ∧
    (blockStep newRE cfg d idx rc).1.botUserAgents = idx.botUserAgents ∧
    (blockStep newRE cfg d idx rc).1.cookieRules = idx.cookieRules := by
  unfold blockStep
  cases cfg.block_regex with
  | none => simp
  | some p =>
    by_cases hp : patTruthy (some p) = true
    · rcases hcp : RegexCache.compile newRE rc p with ⟨ores, rc2⟩
      cases ores <;> simp [hp, hcp]
    · simp [hp]

theorem blockStep_rc (newRE : String → Option JSRegExp) (cfg : SiteConfig)
    (d : String) (idx : SiteIndexes) (rc : RegexCache) :
    (blockStep newRE cfg d idx rc).2.matchResults = rc.matchResults ∧
    (blockStep newRE cfg d idx rc).2.maxCacheSize = rc.maxCacheSize := by
  unfold blockStep
  cases cfg.block_regex with
  | none => simp
  | some p =>
    by_cases hp : patTruthy (some p) = true
    · rcases hcp : RegexCache.compile newRE rc p with ⟨ores, rc2⟩
      have hpre1 := (compile_preserves newRE rc p).1
      have hpre2 := (compile_preserves newRE rc p).2
      rw [hcp] at hpre1 hpre2
      cases ores <;> simp [hp, hcp] <;> exact ⟨hpre1, hpre2⟩
    · simp [hp]

/-- `indexFeatureDomain` leaves the four core lookup maps unchanged. -/
theorem indexFeatureDomain_core (newRE : String → Option JSRegExp)
    (cfg : SiteConfig) (st : SiteIndexes × RegexCache) (d : String) :
    (indexFeatureDomain newRE cfg st d).1.domainMap = st.1.domainMap ∧
    (indexFeatureDomain newRE cfg st d).1.groupMap = st.1.groupMap ∧
    (indexFeatureDomain newRE cfg st d).1.groupConfigs = st.1.groupConfigs ∧
    (indexFeatureDomain newRE cfg st d).1.indexedDomains = st.1.indexedDomains := by
  unfold indexFeatureDomain
  have h1 := uaStep_frame cfg d st.1
  have h2 := cookieTypeStep_frame cfg d (uaStep cfg d st.1)
  have h3 := cookieHoldStep_frame cfg d (cookieTypeStep cfg d (uaStep cfg d st.1))
  have h4 := cookieDropStep_frame cfg d
    (cookieHoldStep cfg d (cookieTypeStep cfg d (uaStep cfg d st.1)))
  have h5 := blockStep_frame newRE cfg d
    (cookieDropStep cfg d (cookieHoldStep cfg d (cookieTypeStep cfg d (uaStep cfg d st.1))))
    st.2
  refine ⟨?_, ?_, ?_, ?_⟩
  · rw [h5.1, h4.1, h3.1, h2.1, h1.1]
  · rw [h5.2.1, h4.2.1, h3.2.1, h2.2.1, h1.2.1]
  · rw [h5.2.2.1, h4.2.2.1, h3.2.2.1, h2.2.2.1, h1.2.2.1]
  · rw [h5.2.2.2.1, h4.2.2.2.1, h3.2.2.2.1, h2.2.2.2.1, h1.2.2.2.1]

/-- `indexFeatureDomain` leaves the result cache and its bound unchanged. -/
theorem indexFeatureDomain_results (newRE : String → Option JSRegExp)
    (cfg : SiteConfig) (st : SiteIndexes × RegexCache) (d : String) :
    (indexFeatureDomain newRE cfg st d).2.matchResults = st.2.matchResults ∧
    (indexFeatureDomain newRE cfg st d).2.maxCacheSize = st.2.maxCacheSize := by
  unfold indexFeatureDomain
  exact blockStep_rc newRE cfg d _ st.2

/-- `indexFeatures` leaves the four core lookup maps unchanged. -/
theorem indexFeatures_core (newRE : String → Option JSRegExp)
    (cfg : SiteConfig) (st : SiteIndexes × RegexCache) :
    (indexFeatures newRE cfg st).1.domainMap = st.1.domainMap ∧
    (indexFeatures newRE cfg st).1.groupMap = st.1.groupMap ∧
    (indexFeatures newRE cfg st).1.groupConfigs = st.1.groupConfigs ∧
    (indexFeatures newRE cfg st).1.indexedDomains = st.1.indexedDomains := by
  unfold indexFeatures
  cases hdom : cfg.domain with
  | none => simp
  | some d0 =>
    simp only
    by_cases h0 : d0 = ""
    · simp [h0]
    · rw [if_neg h0]
      exact foldl_preserve (indexFeatureDomain newRE cfg)
        (fun st2 => st2.1.domainMap = st.1.domainMap ∧
          st2.1.groupMap = st.1.groupMap ∧
          st2.1.groupConfigs = st.1.groupConfigs ∧
          st2.1.indexedDomains = st.1.indexedDomains)
        (by
          intro s b hs
          have hc := indexFeatureDomain_core newRE cfg s b
          exact ⟨hc.1.trans hs.1, hc.2.1.trans hs.2.1,
            hc.2.2.1.trans hs.2.2.1, hc.2.2.2.trans hs.2.2.2⟩)
        (cfg.group.getD [d0]) st ⟨rfl, rfl, rfl, rfl⟩

/-! ## Characterisation of `buildIndexes` on the core lookup maps -/

theorem contains_addSet (d : String) (s : List String) (k : String) :
    (addSet d s).contains k = (s.contains k || decide (k = d)) := by
  by_cases hk : k = d <;> by_cases hd : d ∈ s <;>
    simp_all [addSet]

/-- Effect of the group registration loop of `buildEntry` (lines 255–258):
`groupMap` and `indexedDomains` gain every member, other fields untouched. -/
theorem groupFold_char (nm : String) (k : String) :
    ∀ (g : List String) (idx : SiteIndexes),
    (lookupKV k (g.foldl (fun idx d =>
        { idx with groupMap := setKV d nm idx.groupMap,
                   indexedDomains := addSet d idx.indexedDomains }) idx).groupMap
      = if k ∈ g then some nm else lookupKV k idx.groupMap) ∧
    ((g.foldl (fun idx d =>
        { idx with groupMap := setKV d nm idx.groupMap,
                   indexedDomains := addSet d idx.indexedDomains }) idx).indexedDomains.contains k
      = (decide (k ∈ g) || idx.indexedDomains.contains k)) ∧
    ((g.foldl (fun idx d =>
        { idx with groupMap := setKV d nm idx.groupMap,
                   indexedDomains := addSet d idx.indexedDomains }) idx).domainMap
      = idx.domainMap) ∧
    ((g.foldl (fun idx d =>
        { idx with groupMap := setKV d nm idx.groupMap,
                   indexedDomains := addSet d idx.indexedDomains }) idx).groupConfigs
      = idx.groupConfigs) ∧
    ((g.foldl (fun idx d =>
        { idx with groupMap := setKV d nm idx.groupMap,
                   indexedDomains := addSet d idx.indexedDomains }) idx).botUserAgents
      = idx.botUserAgents) ∧
    ((g.foldl (fun idx d =>
        { idx with groupMap := setKV d nm idx.groupMap,
                   indexedDomains := addSet d idx.indexedDomains }) idx).cookieRules
      = idx.cookieRules) ∧
    ((g.foldl (fun idx d =>
        { idx with groupMap := setKV d nm idx.groupMap,
                   indexedDomains := addSet d idx.indexedDomains }) idx).blockRules
      = idx.blockRules)
  | [], idx => by simp
  | d :: g, idx => by
    have ih := groupFold_char nm k g
      { idx with groupMap := setKV d nm idx.groupMap,
                 indexedDomains := addSet d idx.indexedDomains }
    simp only [List.foldl_cons]
    refine ⟨?_, ?_, ih.2.2.1, ih.2.2.2.1, ih.2.2.2.2.1, ih.2.2.2.2.2.1,
      ih.2.2.2.2.2.2⟩
    · rw [ih.1]
      by_cases hg : k ∈ g
      · simp [hg]
      · by_cases hk : k = d
        · subst hk
          simp [hg, lookupKV_setKV_self]
        · rw [lookupKV_setKV_ne _ _ hk]
          simp [hg, hk]
    · rw [ih.2.1]
      simp only
      rw [contains_addSet]
      by_cases hg : k ∈ g <;> by_cases hk : k = d <;>
        simp [hg, hk, Bool.or_comm, Bool.or_assoc, Bool.or_left_comm]

theorem domainRegisters_true {cfg : SiteConfig} {k : String}
    (hmeta : isMetaEntry cfg = false) (hgrp : cfg.group = none)
    (hdom : cfg.domain = some k) (hk : k ≠ "") : domainRegisters cfg k = true := by
  unfold domainRegisters
  rw [if_pos ⟨hmeta, hgrp, hdom, hk⟩]

theorem domainRegisters_false_group {cfg : SiteConfig} {k : String} {g : List String}
    (hgrp : cfg.group = some g) : domainRegisters cfg k = false := by
  unfold domainRegisters
  rw [if_neg]
  intro hcon
  rw [hgrp] at hcon
  exact Option.noConfusion hcon.2.1

theorem domainRegisters_false_ne {cfg : SiteConfig} {k d0 : String}
    (hdom : cfg.domain = some d0) (hne : d0 ≠ k) : domainRegisters cfg k = false := by
  unfold domainRegisters
  rw [if_neg]
  intro hcon
  have h2 := hcon.2.2.1
  rw [hdom] at h2
  exact hne (Option.some.inj h2)

theorem domainRegisters_false_empty {cfg : SiteConfig} {k : String}
    (hdom : cfg.domain = some "") : domainRegisters cfg k = false := by
  unfold domainRegisters
  rw [if_neg]
  intro hcon
  have h2 := hcon.2.2.1
  rw [hdom] at h2
  exact hcon.2.2.2 (Option.some.inj h2).symm

theorem domainRegisters_false_nodomain {cfg : SiteConfig} {k : String}
    (hdom : cfg.domain = none) : domainRegisters cfg k = false := by
  unfold domainRegisters
  rw [if_neg]
  intro hcon
  have h2 := hcon.2.2.1
  rw [hdom] at h2
  exact Option.noConfusion h2

theorem domainRegisters_false_meta {cfg : SiteConfig} {k : String}
    (hmeta : isMetaEntry cfg = true) : domainRegisters cfg k = false := by
  unfold domainRegisters
  rw [if_neg]
  intro hcon
  rw [hcon.1] at hmeta
  exact Bool.noConfusion hmeta

theorem groupRegisters_true {cfg : SiteConfig} {k : String} {g : List String}
    (hmeta : isMetaEntry cfg = false) (hgrp : cfg.group = some g) (hk : k ∈ g) :
    groupRegisters cfg k = true := by
  unfold groupRegisters
  rw [if_pos ⟨hmeta, g, hgrp, hk⟩]

theorem groupRegisters_false_notmem {cfg : SiteConfig} {k : String} {g : List String}
    (hgrp : cfg.group = some g) (hk : ¬ k ∈ g) : groupRegisters cfg k = false := by
  unfold groupRegisters
  rw [if_neg]
  intro hcon
  obtain ⟨g2, hg2, hkg2⟩ := hcon.2
  rw [hgrp] at hg2
  exact hk ((Option.some.inj hg2) ▸ hkg2)

theorem groupRegisters_false_nogroup {cfg : SiteConfig} {k : String}
    (hgrp : cfg.group = none) : groupRegisters cfg k = false := by
  unfold groupRegisters
  rw [if_neg]
  intro hcon
  obtain ⟨g2, hg2, _⟩ := hcon.2
  rw [hgrp] at hg2
  exact Option.noConfusion hg2

theorem groupRegisters_false_meta {cfg : SiteConfig} {k : String}
    (hmeta : isMetaEntry cfg = true) : groupRegisters cfg k = false := by
  unfold groupRegisters
  rw [if_neg]
  intro hcon
  rw [hcon.1] at hmeta
  exact Bool.noConfusion hmeta

/-- What one `buildEntry` does to a `domainMap` lookup. -/
theorem buildEntry_domainMap (newRE : String → Option JSRegExp)
    (st : SiteIndexes × RegexCache) (nm : String) (cfg : SiteConfig) (k : String) :
    lookupKV k (buildEntry newRE st (nm, cfg)).1.domainMap =
      (if domainRegisters cfg k then some cfg else lookupKV k st.1.domainMap) := by
  unfold buildEntry
  by_cases hmeta : isMetaEntry cfg = true
  · rw [if_pos hmeta, domainRegisters_false_meta hmeta]
    simp
  · simp only [hmeta, Bool.false_eq_true, if_false]
    simp only [Bool.not_eq_true] at hmeta
    rw [(indexFeatures_core newRE cfg _).1]
    simp only
    cases hgrp : cfg.group with
    | some g =>
      simp only
      rw [(groupFold_char nm k g st.1).2.2.1, domainRegisters_false_group hgrp]
      simp
    | none =>
      simp only
      cases hdom : cfg.domain with
      | none =>
        rw [domainRegisters_false_nodomain hdom]
        simp
      | some d0 =>
        simp only
        by_cases h0 : d0 ≠ ""
        · rw [if_pos h0]
          simp only
          by_cases hk : d0 = k
          · subst hk
            rw [lookupKV_setKV_self, domainRegisters_true hmeta hgrp hdom h0]
            simp
          · rw [lookupKV_setKV_ne _ _ (Ne.symm hk), domainRegisters_false_ne hdom hk]
            simp
        · rw [if_neg h0]
          simp only [not_not] at h0
          subst h0
          rw [domainRegisters_false_empty hdom]
          simp
/-- What one `buildEntry` does to a `groupMap` lookup. -/
theorem buildEntry_groupMap (newRE : String → Option JSRegExp)
    (st : SiteIndexes × RegexCache) (nm : String) (cfg : SiteConfig) (k : String) :
    lookupKV k (buildEntry newRE st (nm, cfg)).1.groupMap =
      (if groupRegisters cfg k then some nm else lookupKV k st.1.groupMap) := by
  unfold buildEntry
  by_cases hmeta : isMetaEntry cfg = true
  · rw [if_pos hmeta, groupRegisters_false_meta hmeta]
    simp
  · simp only [hmeta, Bool.false_eq_true, if_false]
    simp only [Bool.not_eq_true] at hmeta
    rw [(indexFeatures_core newRE cfg _).2.1]
    simp only
    cases hgrp : cfg.group with
    | some g =>
      simp only
      rw [(groupFold_char nm k g st.1).1]
      by_cases hkg : k ∈ g
      · rw [if_pos hkg, groupRegisters_true hmeta hgrp hkg]
        simp
      · rw [if_neg hkg, groupRegisters_false_notmem hgrp hkg]
        simp
    | none =>
      simp only
      rw [groupRegisters_false_nogroup hgrp]
      simp only [Bool.false_eq_true, if_false]
      cases hdom : cfg.domain with
      | none => rfl
      | some d0 =>
        simp only
        by_cases h0 : d0 ≠ "" <;> simp [h0]

theorem groupCfgRegisters_true {cfg : SiteConfig} {nm : String} {g : List String}
    (hmeta : isMetaEntry cfg = false) (hgrp : cfg.group = some g) :
    groupCfgRegisters cfg nm nm = true := by
  unfold groupCfgRegisters
  rw [if_pos ⟨hmeta, by rw [hgrp]; intro hcon; exact Option.noConfusion hcon, rfl⟩]

theorem groupCfgRegisters_false_ne {cfg : SiteConfig} {nm k : String}
    (hne : nm ≠ k) : groupCfgRegisters cfg nm k = false := by
  unfold groupCfgRegisters
  rw [if_neg]
  intro hcon
  exact hne hcon.2.2

theorem groupCfgRegisters_false_nogroup {cfg : SiteConfig} {nm k : String}
    (hgrp : cfg.group = none) : groupCfgRegisters cfg nm k = false := by
  unfold groupCfgRegisters
  rw [if_neg]
  intro hcon
  rw [hgrp] at hcon
  exact hcon.2.1 rfl

theorem groupCfgRegisters_false_meta {cfg : SiteConfig} {nm k : String}
    (hmeta : isMetaEntry cfg = true) : groupCfgRegisters cfg nm k = false := by
  unfold groupCfgRegisters
  rw [if_neg]
  intro hcon
  rw [hcon.1] at hmeta
  exact Bool.noConfusion hmeta

/-- What one `buildEntry` does to a `groupConfigs` lookup. -/
theorem buildEntry_groupConfigs (newRE : String → Option JSRegExp)
    (st : SiteIndexes × RegexCache) (nm : String) (cfg : SiteConfig) (k : String) :
    lookupKV k (buildEntry newRE st (nm, cfg)).1.groupConfigs =
      (if groupCfgRegisters cfg nm k then some cfg
       else lookupKV k st.1.groupConfigs) := by
  unfold buildEntry
  by_cases hmeta : isMetaEntry cfg = true
  · rw [if_pos hmeta, groupCfgRegisters_false_meta hmeta]
    simp
  · simp only [hmeta, Bool.false_eq_true, if_false]
    simp only [Bool.not_eq_true] at hmeta
    rw [(indexFeatures_core newRE cfg _).2.2.1]
    simp only
    cases hgrp : cfg.group with
    | some g =>
      simp only
      rw [(groupFold_char nm k g st.1).2.2.2.1]
      by_cases hk : nm = k
      · subst hk
        rw [lookupKV_setKV_self, groupCfgRegisters_true hmeta hgrp]
        simp
      · rw [lookupKV_setKV_ne _ _ (Ne.symm hk), groupCfgRegisters_false_ne hk]
        simp
    | none =>
      simp only
      rw [groupCfgRegisters_false_nogroup hgrp]
      simp only [Bool.false_eq_true, if_false]
      cases hdom : cfg.domain with
      | none => rfl
      | some d0 =>
        simp only
        by_cases h0 : d0 ≠ "" <;> simp [h0]

/-- What one `buildEntry` does to `hasDomain`. -/
theorem buildEntry_indexed (newRE : String → Option JSRegExp)
    (st : SiteIndexes × RegexCache) (nm : String) (cfg : SiteConfig) (k : String) :
    (buildEntry newRE st (nm, cfg)).1.hasDomain k =
      (entryIndexes cfg k || st.1.hasDomain k) := by
  unfold SiteIndexes.hasDomain
  unfold buildEntry
  by_cases hmeta : isMetaEntry cfg = true
  · rw [if_pos hmeta]
    unfold entryIndexes
    rw [groupRegisters_false_meta hmeta, domainRegisters_false_meta hmeta]
    simp
  · simp only [hmeta, Bool.false_eq_true, if_false]
    simp only [Bool.not_eq_true] at hmeta
    rw [(indexFeatures_core newRE cfg _).2.2.2]
    simp only
    cases hgrp : cfg.group with
    | some g =>
      simp only
      rw [(groupFold_char nm k g st.1).2.1]
      unfold entryIndexes
      rw [domainRegisters_false_group hgrp]
      by_cases hkg : k ∈ g
      · rw [groupRegisters_true hmeta hgrp hkg]
        simp [hkg]
      · rw [groupRegisters_false_notmem hgrp hkg]
        simp [hkg]
    | none =>
      simp only
      unfold entryIndexes
      rw [groupRegisters_false_nogroup hgrp]
      cases hdom : cfg.domain with
      | none =>
        rw [domainRegisters_false_nodomain hdom]
        simp
      | some d0 =>
        simp only
        by_cases h0 : d0 ≠ ""
        · rw [if_pos h0]
          simp only
          rw [contains_addSet]
          by_cases hk : k = d0
          · subst hk
            rw [domainRegisters_true hmeta hgrp hdom h0]
            simp
          · rw [domainRegisters_false_ne hdom (Ne.symm hk)]
            simp [hk]
        · rw [if_neg h0]
          simp only [not_not] at h0
          subst h0
          rw [domainRegisters_false_empty hdom]
          simp

/-- `domainMap` lookups after `buildIndexes`, from the catalog alone. -/
theorem build_domainMap (newRE : String → Option JSRegExp) :
    ∀ (cat : List (String × SiteConfig)) (st : SiteIndexes × RegexCache) (k : String),
    lookupKV k (buildIndexes newRE st cat).1.domainMap =
      (match catDomain k cat with
       | some v => some v
       | none => lookupKV k st.1.domainMap)
  | [], st, k => rfl
  | (nm, cfg) :: t, st, k => by
    show lookupKV k (buildIndexes newRE (buildEntry newRE st (nm, cfg)) t).1.domainMap = _
    rw [build_domainMap newRE t (buildEntry newRE st (nm, cfg)) k]
    cases hc : catDomain k t with
    | some v => simp [catDomain, hc]
    | none =>
      simp only [hc]
      rw [buildEntry_domainMap]
      unfold catDomain
      rw [hc]
      by_cases hdr : domainRegisters cfg k = true <;> simp [hdr]

/-- `groupMap` lookups after `buildIndexes`, from the catalog alone. -/
theorem build_groupMap (newRE : String → Option JSRegExp) :
    ∀ (cat : List (String × SiteConfig)) (st : SiteIndexes × RegexCache) (k : String),
    lookupKV k (buildIndexes newRE st cat).1.groupMap =
      (match catGroupName k cat with
       | some v => some v
       | none => lookupKV k st.1.groupMap)
  | [], st, k => rfl
  | (nm, cfg) :: t, st, k => by
    show lookupKV k (buildIndexes newRE (buildEntry newRE st (nm, cfg)) t).1.groupMap = _
    rw [build_groupMap newRE t (buildEntry newRE st (nm, cfg)) k]
    cases hc : catGroupName k t with
    | some v => simp [catGroupName, hc]
    | none =>
      simp only [hc]
      rw [buildEntry_groupMap]
      unfold catGroupName
      rw [hc]
      by_cases hgr : groupRegisters cfg k = true <;> simp [hgr]

/-- `groupConfigs` lookups after `buildIndexes`, from the catalog alone. -/
theorem build_groupConfigs (newRE : String → Option JSRegExp) :
    ∀ (cat : List (String × SiteConfig)) (st : SiteIndexes × RegexCache) (k : String),
    lookupKV k (buildIndexes newRE st cat).1.groupConfigs =
      (match catGroupCfg k cat with
       | some v => some v
       | none => lookupKV k st.1.groupConfigs)
  | [], st, k => rfl
  | (nm, cfg) :: t, st, k => by
    show lookupKV k (buildIndexes newRE (buildEntry newRE st (nm, cfg)) t).1.groupConfigs = _
    rw [build_groupConfigs newRE t (buildEntry newRE st (nm, cfg)) k]
    cases hc : catGroupCfg k t with
    | some v => simp [catGroupCfg, hc]
    | none =>
      simp only [hc]
      rw [buildEntry_groupConfigs]
      unfold catGroupCfg
      rw [hc]
      by_cases hgr : groupCfgRegisters cfg nm k = true <;> simp [hgr]

/-- `hasDomain` after `buildIndexes`, from the catalog alone. -/
theorem build_indexed (newRE : String → Option JSRegExp) :
    ∀ (cat : List (String × SiteConfig)) (st : SiteIndexes × RegexCache) (k : String),
    (buildIndexes newRE st cat).1.hasDomain k =
      (catIndexed k cat || st.1.hasDomain k)
  | [], st, k => by simp [catIndexed, buildIndexes, List.foldl_nil]
  | (nm, cfg) :: t, st, k => by
    show (buildIndexes newRE (buildEntry newRE st (nm, cfg)) t).1.hasDomain k = _
    rw [build_indexed newRE t (buildEntry newRE st (nm, cfg)) k]
    rw [buildEntry_indexed]
    simp [catIndexed, Bool.or_comm, Bool.or_assoc, Bool.or_left_comm]

/-! ## Feature-table population (claim C4) -/

theorem compile_re_fst_isSome (newRE : String → Option JSRegExp) (c : RegexCache)
    (r : JSRegExp) : (RegexCache.compile newRE c (.re r)).1.isSome = true := by
  rw [compile_re_eq]
  by_cases hk : hasKV (r.source ++ r.flags) c.cache
  · rw [if_pos hk]
    exact hk
  · rw [if_neg hk]
    rfl

/-- `indexFeatureDomain` computes `botUserAgents` through `uaStep` alone. -/
theorem featDomain_bua (newRE : String → Option JSRegExp) (cfg : SiteConfig)
    (st : SiteIndexes × RegexCache) (d0 : String) :
    (indexFeatureDomain newRE cfg st d0).1.botUserAgents =
      (uaStep cfg d0 st.1).botUserAgents := by
  unfold indexFeatureDomain
  rw [(blockStep_frame newRE cfg d0 _ _).2.2.2.2.1,
    (cookieDropStep_frame cfg d0 _).2.2.2.2.1,
    (cookieHoldStep_frame cfg d0 _).2.2.2.2.1,
    (cookieTypeStep_frame cfg d0 _).2.2.2.2.1]

/-- `indexFeatureDomain` computes `cookieRules` through the cookie steps. -/
theorem featDomain_cookie (newRE : String → Option JSRegExp) (cfg : SiteConfig)
    (st : SiteIndexes × RegexCache) (d0 : String) :
    (indexFeatureDomain newRE cfg st d0).1.cookieRules =
      (cookieDropStep cfg d0 (cookieHoldStep cfg d0
        (cookieTypeStep cfg d0 (uaStep cfg d0 st.1)))).cookieRules := by
  unfold indexFeatureDomain
  rw [(blockStep_frame newRE cfg d0 _ _).2.2.2.2.2]

/-- `indexFeatureDomain` computes `blockRules` through `blockStep` on a map
equal to the input's. -/
theorem featDomain_block (newRE : String → Option JSRegExp) (cfg : SiteConfig)
    (st : SiteIndexes × RegexCache) (d0 : String) :
    (indexFeatureDomain newRE cfg st d0).1.blockRules =
      (blockStep newRE cfg d0
        (cookieDropStep cfg d0 (cookieHoldStep cfg d0
          (cookieTypeStep cfg d0 (uaStep cfg d0 st.1)))) st.2).1.blockRules := rfl

theorem cookie_inner_blockRules (cfg : SiteConfig) (d0 : String) (idx : SiteIndexes) :
    (cookieDropStep cfg d0 (cookieHoldStep cfg d0
      (cookieTypeStep cfg d0 (uaStep cfg d0 idx)))).blockRules = idx.blockRules := by
  rw [(cookieDropStep_frame cfg d0 _).2.2.2.2.2,
    (cookieHoldStep_frame cfg d0 _).2.2.2.2.2,
    (cookieTypeStep_frame cfg d0 _).2.2.2.2.2,
    (uaStep_frame cfg d0 _).2.2.2.2.2]

theorem uaStep_est {cfg : SiteConfig} (d0 : String) (idx : SiteIndexes)
    (h : uaTruthy cfg.useragent = true) :
    (lookupKV d0 (uaStep cfg d0 idx).botUserAgents).isSome = true := by
  unfold uaStep
  cases hua : cfg.useragent with
  | none => rw [hua] at h; exact Bool.noConfusion h
  | some u =>
    rw [hua] at h
    simp only
    rw [if_pos h]
    simp only
    rw [lookupKV_setKV_self]
    rfl

theorem uaStep_mono {cfg : SiteConfig} (d0 : String) (idx : SiteIndexes) (e : String)
    (h : (lookupKV e idx.botUserAgents).isSome = true) :
    (lookupKV e (uaStep cfg d0 idx).botUserAgents).isSome = true := by
  unfold uaStep
  cases cfg.useragent with
  | none => exact h
  | some u =>
    simp only
    by_cases ht : uaTruthy (some u) = true
    · rw [if_pos ht]
      exact lookup_isSome_setKV _ _ _ _ h
    · rw [if_neg ht]
      exact h

theorem cookieTypeStep_mono {cfg : SiteConfig} (d0 : String) (idx : SiteIndexes)
    (e : String) (h : (lookupKV e idx.cookieRules).isSome = true) :
    (lookupKV e (cookieTypeStep cfg d0 idx).cookieRules).isSome = true := by
  unfold cookieTypeStep
  by_cases h1 : cfg.allow_cookies = true
  · rw [if_pos h1]
    exact lookup_isSome_setKV _ _ _ _ h
  · rw [if_neg h1]
    by_cases h2 : cfg.remove_cookies = true
    · rw [if_pos h2]
      exact lookup_isSome_setKV _ _ _ _ h
    · rw [if_neg h2]
      exact h

theorem cookieHoldStep_mono {cfg : SiteConfig} (d0 : String) (idx : SiteIndexes)
    (e : String) (h : (lookupKV e idx.cookieRules).isSome = true) :
    (lookupKV e (cookieHoldStep cfg d0 idx).cookieRules).isSome = true := by
  unfold cookieHoldStep
  cases cfg.remove_cookies_select_hold with
  | none => exact h
  | some v =>
    simp only
    by_cases hv : v ≠ ""
    · rw [if_pos hv]
      exact lookup_isSome_setKV _ _ _ _ h
    · rw [if_neg hv]
      exact h

theorem cookieDropStep_mono {cfg : SiteConfig} (d0 : String) (idx : SiteIndexes)
    (e : String) (h : (lookupKV e idx.cookieRules).isSome = true) :
    (lookupKV e (cookieDropStep cfg d0 idx).cookieRules).isSome = true := by
  unfold cookieDropStep
  cases cfg.remove_cookies_select_drop with
  | none => exact h
  | some v =>
    simp only
    by_cases hv : v ≠ ""
    · rw [if_pos hv]
      exact lookup_isSome_setKV _ _ _ _ h
    · rw [if_neg hv]
      exact h

/-- If the entry declares any cookie directive, the three cookie steps leave
a rule for its domain. -/
theorem cookieSteps_est (cfg : SiteConfig) (d0 : String) (idx : SiteIndexes)
    (h : cfg.allow_cookies = true ∨ cfg.remove_cookies = true ∨
      strTruthy cfg.remove_cookies_select_hold = true ∨
      strTruthy cfg.remove_cookies_select_drop = true) :
    (lookupKV d0 (cookieDropStep cfg d0 (cookieHoldStep cfg d0
      (cookieTypeStep cfg d0 idx))).cookieRules).isSome = true := by
  by_cases hallow : cfg.allow_cookies = true
  · apply cookieDropStep_mono
    apply cookieHoldStep_mono
    unfold cookieTypeStep
    rw [if_pos hallow, lookupKV_setKV_self]
    rfl
  · by_cases hrem : cfg.remove_cookies = true
    · apply cookieDropStep_mono
      apply cookieHoldStep_mono
      unfold cookieTypeStep
      rw [if_neg (by simp [hallow]), if_pos hrem, lookupKV_setKV_self]
      rfl
    · by_cases hhold : strTruthy cfg.remove_cookies_select_hold = true
      · apply cookieDropStep_mono
        unfold cookieHoldStep
        cases hh : cfg.remove_cookies_select_hold with
        | none => rw [hh] at hhold; exact Bool.noConfusion hhold
        | some v =>
          rw [hh] at hhold
          unfold strTruthy at hhold
          simp only [decide_eq_true_eq] at hhold
          simp only
          rw [if_pos hhold]
          simp only
          rw [lookupKV_setKV_self]
          rfl
      · have hdrop : strTruthy cfg.remove_cookies_select_drop = true := by
          rcases h with h | h | h | h
          · exact absurd h hallow
          · exact absurd h hrem
          · exact absurd h hhold
          · exact h
        unfold cookieDropStep
        cases hh : cfg.remove_cookies_select_drop with
        | none => rw [hh] at hdrop; exact Bool.noConfusion hdrop
        | some v =>
          rw [hh] at hdrop
          unfold strTruthy at hdrop
          simp only [decide_eq_true_eq] at hdrop
          simp only
          rw [if_pos hdrop]
          simp only
          rw [lookupKV_setKV_self]
          rfl

/-- `blockStep` preserves non-empty block-rule lists at every key. -/
theorem blockStep_block_mono (newRE : String → Option JSRegExp) {cfg : SiteConfig}
    (d0 : String) (idx : SiteIndexes) (rc : RegexCache) (e : String)
    (h : ∃ l, lookupKV e idx.blockRules = some l ∧ l ≠ []) :
    ∃ l, lookupKV e (blockStep newRE cfg d0 idx rc).1.blockRules = some l ∧ l ≠ [] := by
  unfold blockStep
  cases hbr : cfg.block_regex with
  | none => exact h
  | some p =>
    simp only
    by_cases hp : patTruthy (some p) = true
    · rw [if_pos hp]
      rcases hcp : RegexCache.compile newRE rc p with ⟨ores, rc2⟩
      cases ores with
      | none => exact h
      | some compiled =>
        simp only
        obtain ⟨l, hl, hne⟩ := h
        by_cases he : e = d0
        · subst he
          refine ⟨(lookupKV e idx.blockRules).getD [] ++ [compiled], ?_, by simp⟩
          rw [lookupKV_setKV_self]
        · rw [lookupKV_setKV_ne _ _ he]
          exact ⟨l, hl, hne⟩
    · rw [if_neg hp]
      exact h

/-- `blockStep` establishes a non-empty block-rule list for its own domain
when the entry carries a `RegExp` block pattern. -/
theorem blockStep_block_est (newRE : String → Option JSRegExp) {cfg : SiteConfig}
    (d0 : String) (idx : SiteIndexes) (rc : RegexCache) (rb : JSRegExp)
    (hbr : cfg.block_regex = some (.re rb)) :
    ∃ l, lookupKV d0 (blockStep newRE cfg d0 idx rc).1.blockRules = some l ∧ l ≠ [] := by
  unfold blockStep
  rw [hbr]
  simp only
  rw [if_pos (by rfl)]
  rcases hcp : RegexCache.compile newRE rc (.re rb) with ⟨ores, rc2⟩
  cases ores with
  | none =>
    have := compile_re_fst_isSome newRE rc rb
    rw [hcp] at this
    exact Bool.noConfusion this
  | some compiled =>
    simp only
    refine ⟨(lookupKV d0 idx.blockRules).getD [] ++ [compiled], ?_, by simp⟩
    rw [lookupKV_setKV_self]

/-- `indexFeatureDomain` (for any entry) preserves `FeatP`. -/
theorem featDomain_featP_mono (newRE : String → Option JSRegExp)
    (cfg cfg2 : SiteConfig) (d : String) (st : SiteIndexes × RegexCache) (d0 : String)
    (h : FeatP cfg d st) : FeatP cfg d (indexFeatureDomain newRE cfg2 st d0) := by
  obtain ⟨h1, h2, h3⟩ := h
  refine ⟨?_, ?_, ?_⟩
  · intro hua
    rw [featDomain_bua]
    exact uaStep_mono d0 st.1 d (h1 hua)
  · intro hck
    rw [featDomain_cookie]
    apply cookieDropStep_mono
    apply cookieHoldStep_mono
    apply cookieTypeStep_mono
    rw [(uaStep_frame cfg2 d0 st.1).2.2.2.2.1]
    exact h2 hck
  · intro rb hrb
    rw [featDomain_block]
    apply blockStep_block_mono
    rw [cookie_inner_blockRules]
    exact h3 rb hrb

/-- Processing an entry's own feature loop establishes `FeatP` for each of
its feature domains. -/
theorem featDomain_featP_est (newRE : String → Option JSRegExp)
    (cfg : SiteConfig) (st : SiteIndexes × RegexCache) (d : String) :
    FeatP cfg d (indexFeatureDomain newRE cfg st d) := by
  refine ⟨?_, ?_, ?_⟩
  · intro hua
    rw [featDomain_bua]
    exact uaStep_est d st.1 hua
  · intro hck
    rw [featDomain_cookie]
    exact cookieSteps_est cfg d (uaStep cfg d st.1) hck
  · intro rb hrb
    rw [featDomain_block]
    exact blockStep_block_est newRE d _ st.2 rb hrb

/-- `indexFeatures` preserves `FeatP`. -/
theorem indexFeatures_featP_mono (newRE : String → Option JSRegExp)
    (cfg cfg2 : SiteConfig) (d : String) (st : SiteIndexes × RegexCache)
    (h : FeatP cfg d st) : FeatP cfg d (indexFeatures newRE cfg2 st) := by
  unfold indexFeatures
  cases cfg2.domain with
  | none => exact h
  | some d0 =>
    simp only
    by_cases h0 : d0 = ""
    · rw [if_pos h0]
      exact h
    · rw [if_neg h0]
      exact foldl_preserve (indexFeatureDomain newRE cfg2) (FeatP cfg d)
        (fun s b hs => featDomain_featP_mono newRE cfg cfg2 d s b hs)
        (cfg2.group.getD [d0]) st h

/-- `buildEntry` preserves `FeatP`. -/
theorem buildEntry_featP_mono (newRE : String → Option JSRegExp)
    (cfg : SiteConfig) (d : String) (st : SiteIndexes × RegexCache)
    (e : String × SiteConfig) (h : FeatP cfg d st) :
    FeatP cfg d (buildEntry newRE st e) := by
  obtain ⟨nm, cfg2⟩ := e
  unfold buildEntry
  by_cases hmeta : isMetaEntry cfg2 = true
  · rw [if_pos hmeta]
    exact h
  · simp only [hmeta, Bool.false_eq_true, if_false]
    apply indexFeatures_featP_mono
    obtain ⟨h1, h2, h3⟩ := h
    cases hgrp : cfg2.group with
    | some g =>
      refine ⟨?_, ?_, ?_⟩
      · intro hua
        show (lookupKV d (List.foldl _ st.1 g).botUserAgents).isSome = true
        rw [(groupFold_char nm d g st.1).2.2.2.2.1]
        exact h1 hua
      · intro hck
        show (lookupKV d (List.foldl _ st.1 g).cookieRules).isSome = true
        rw [(groupFold_char nm d g st.1).2.2.2.2.2.1]
        exact h2 hck
      · intro rb hrb
        show ∃ l, lookupKV d (List.foldl _ st.1 g).blockRules = some l ∧ l ≠ []
        rw [(groupFold_char nm d g st.1).2.2.2.2.2.2]
        exact h3 rb hrb
    | none =>
      simp only
      cases hdom : cfg2.domain with
      | none => exact ⟨h1, h2, h3⟩
      | some d0 =>
        simp only
        by_cases h0 : d0 ≠ ""
        · rw [if_pos h0]
          exact ⟨h1, h2, h3⟩
        · rw [if_neg h0]
          exact ⟨h1, h2, h3⟩

/-- Processing the target entry establishes `FeatP` for each of its feature
domains. -/
theorem buildEntry_featP_est (newRE : String → Option JSRegExp)
    (st : SiteIndexes × RegexCache) (nm : String) (cfg : SiteConfig)
    (d0 d : String) (hdom : cfg.domain = some d0) (hne : d0 ≠ "")
    (hhash : ¬ jsStartsWith d0 "#" = true) (hd : d ∈ cfg.group.getD [d0]) :
    FeatP cfg d (buildEntry newRE st (nm, cfg)) := by
  have hmeta : isMetaEntry cfg = false := by
    unfold isMetaEntry
    rw [hdom]
    simp [hhash]
  unfold buildEntry
  rw [if_neg (by rw [hmeta]; exact Bool.noConfusion)]
  unfold indexFeatures
  rw [hdom]
  simp only
  rw [if_neg hne]
  exact foldl_establish (indexFeatureDomain newRE cfg) (FeatP cfg d)
    (cfg.group.getD [d0]) d hd
    (fun s => featDomain_featP_est newRE cfg s d)
    (fun s b hs => featDomain_featP_mono newRE cfg cfg d s b hs)
    _

/-- C4 amended: for every catalog entry that declares a (non-meta) `domain`
field, every one of its feature-loop domains — which for a group entry are
exactly its registered group members, and for a single-domain entry the
domain itself — has its derived feature tables populated after
`buildIndexes`, for each feature the entry declares.  (The original claim
fails for group entries without a `domain` field: see
`C4_group_without_domain_cex`.) -/
theorem C4_features_populated (newRE : String → Option JSRegExp)
    (catalog : List (String × SiteConfig)) (st0 : SiteIndexes × RegexCache)
    (nm : String) (cfg : SiteConfig) (d0 d : String)
    (hmem : (nm, cfg) ∈ catalog)
    (hdom : cfg.domain = some d0) (hne : d0 ≠ "")
    (hhash : ¬ jsStartsWith d0 "#" = true)
    (hd : d ∈ cfg.group.getD [d0]) :
    (uaTruthy cfg.useragent = true →
      (lookupKV d (buildIndexes newRE st0 catalog).1.botUserAgents).isSome = true) ∧
    ((cfg.allow_cookies = true ∨ cfg.remove_cookies = true ∨
        strTruthy cfg.remove_cookies_select_hold = true ∨
        strTruthy cfg.remove_cookies_select_drop = true) →
      (lookupKV d (buildIndexes newRE st0 catalog).1.cookieRules).isSome = true) ∧
    (∀ rb, cfg.block_regex = some (.re rb) →
      ∃ l, lookupKV d (buildIndexes newRE st0 catalog).1.blockRules = some l ∧ l ≠ []) := by
  exact foldl_establish (buildEntry newRE) (FeatP cfg d) catalog (nm, cfg) hmem
    (fun s => buildEntry_featP_est newRE s nm cfg d0 d hdom hne hhash hd)
    (fun s b hs => buildEntry_featP_mono newRE cfg d s b hs)
    st0

theorem C4_features_populated_witness :
    (lookupKV "nytimes.com"
      (buildIndexes noNewRE ({}, RegexCache.new) nytCatalog).1.blockRules).isSome = true ∧
    (∃ l, lookupKV "nytimes.com"
      (buildIndexes noNewRE ({}, RegexCache.new) nytCatalog).1.blockRules = some l ∧ l ≠ []) := by
  have h := C4_features_populated noNewRE nytCatalog ({}, RegexCache.new)
    "nyt" { domain := some "nytimes.com", block_regex := some (.re reTinypass) }
    "nytimes.com" "nytimes.com"
    (List.mem_cons_self _ _) rfl (by decide) (by decide) (by simp)
  have hb := h.2.2 reTinypass rfl
  refine ⟨?_, hb⟩
  obtain ⟨l, hl, _⟩ := hb
  rw [hl]
  rfl

/-- C4 counterexample: a catalog entry that declares a `group` but no
`domain` field is registered (its member is indexed), yet `indexFeatures`
returns early on the missing `domain` and no feature table is populated —
here the declared user-agent feature is not retrievable for the registered
member. -/
theorem C4_group_without_domain_cex :
    (buildIndexes noNewRE ({}, RegexCache.new) groupOnlyCatalog).1.hasDomain "a.com" = true ∧
    uaTruthy (some (.tag "googlebot")) = true ∧
    lookupKV "a.com"
      (buildIndexes noNewRE ({}, RegexCache.new) groupOnlyCatalog).1.botUserAgents = none := by
  refine ⟨by decide, by decide, by decide⟩

/-! ## Accuracy of `shouldBlockRequest` (claim C7) -/

theorem string_append_cancel_right {a b c : String} (h : a ++ c = b ++ c) :
    a = b := by
  have hd : a.data ++ c.data = b.data ++ c.data := by
    have := congrArg String.data h
    simpa [String.data_append] using this
  exact String.ext (List.append_cancel_right hd)

/-- Two result-cache keys built for the same url determine equal sources. -/
theorem resultKey_inj_src {r r2 : JSRegExp} {url : String}
    (h : resultKey r url = resultKey r2 url) : r.source = r2.source := by
  have h1 : (r.source ++ "::") ++ url = (r2.source ++ "::") ++ url := h
  exact string_append_cancel_right (string_append_cancel_right h1)

theorem mem_evictFirst {x : String × Bool} {m : List (String × Bool)}
    (h : x ∈ evictFirst m) : x ∈ m := by
  cases m with
  | nil => exact h
  | cons hd t => exact List.mem_cons_of_mem _ h

/-- Inserting a rule's own compiled form keeps the pattern cache clean. -/
theorem cleanFor_compile_insert {rc : RegexCache} {rules0 : List JSRegExp}
    {r : JSRegExp} (hr : r ∈ rules0) (hclean : CleanFor rc rules0)
    (hinj : KeyInj rules0) :
    CleanFor { rc with cache := setKV (r.source ++ r.flags) r rc.cache } rules0 := by
  intro r2 hr2 v hv
  have hv' : lookupKV (r2.source ++ r2.flags)
      (setKV (r.source ++ r.flags) r rc.cache) = some v := hv
  by_cases hkey : r2.source ++ r2.flags = r.source ++ r.flags
  · rw [hkey, lookupKV_setKV_self] at hv'
    have hvr : r = v := by injection hv'
    have hrr2 : r = r2 := hinj r hr r2 hr2 hkey.symm
    rw [← hvr, hrr2]
  · rw [lookupKV_setKV_ne r rc.cache hkey] at hv'
    exact hclean r2 hr2 v hv'

theorem cleanFor_results_change {rc : RegexCache} {rules0 : List JSRegExp}
    (hclean : CleanFor rc rules0) (m : List (String × Bool)) :
    CleanFor { rc with matchResults := m } rules0 :=
  fun r hr v hv => hclean r hr v hv

theorem accFor_cache_change {rc : RegexCache} {rules0 : List JSRegExp}
    {url : String} (hacc : AccFor rc rules0 url)
    (cache : List (String × JSRegExp)) :
    AccFor { rc with cache := cache } rules0 url :=
  fun r hr k v hv hk => hacc r hr k v hv hk

/-- The entry a result-cache miss inserts for a rule is accurate for every
rule sharing its key, given source-consistency; accuracy of the old entries
survives the eviction. -/
theorem accFor_insert {rc : RegexCache} {rules0 : List JSRegExp} {url : String}
    {r : JSRegExp} (hr : r ∈ rules0) (hacc : AccFor rc rules0 url)
    (hcons : SrcCons rules0 url) :
    AccFor { rc with matchResults :=
      (if rc.maxCacheSize ≤ rc.matchResults.length then evictFirst rc.matchResults
       else rc.matchResults) ++ [(resultKey r url, r.testFn url)] } rules0 url := by
  intro r2 hr2 k v hv hk
  have hv' : (k, v) ∈
      (if rc.maxCacheSize ≤ rc.matchResults.length then evictFirst rc.matchResults
       else rc.matchResults) ++ [(resultKey r url, r.testFn url)] := hv
  rcases List.mem_append.mp hv' with hin | hin
  · have hin' : (k, v) ∈ rc.matchResults := by
      by_cases hfull : rc.maxCacheSize ≤ rc.matchResults.length
      · rw [if_pos hfull] at hin
        exact mem_evictFirst hin
      · rw [if_neg hfull] at hin
        exact hin
    exact hacc r2 hr2 k v hin' hk
  · have hkv : k = resultKey r url ∧ v = r.testFn url := by
      simpa using hin
    obtain ⟨hk1, hv1⟩ := hkv
    have hkk : resultKey r url = resultKey r2 url := by
      rw [← hk1]
      exact hk
    have hsrc : r.source = r2.source := resultKey_inj_src hkk
    rw [hv1]
    exact hcons r hr r2 hr2 hsrc

/-- A `test` on a rule of a clean, accurate, key-injective,
source-consistent rule set returns the rule's direct evaluation and
preserves all four properties of the state. -/
theorem test_good (newRE : String → Option JSRegExp) (rc : RegexCache)
    (rules0 : List JSRegExp) (url : String) (r : JSRegExp) (hr : r ∈ rules0)
    (hclean : CleanFor rc rules0) (hacc : AccFor rc rules0 url)
    (hinj : KeyInj rules0) (hcons : SrcCons rules0 url) :
    (RegexCache.test newRE rc (.re r) url).1 = r.testFn url ∧
    CleanFor (RegexCache.test newRE rc (.re r) url).2 rules0 ∧
    AccFor (RegexCache.test newRE rc (.re r) url).2 rules0 url := by
  have hcp := compile_re_eq newRE rc r
  by_cases hk : hasKV (r.source ++ r.flags) rc.cache = true
  · rw [if_pos hk] at hcp
    have hsome : (lookupKV (r.source ++ r.flags) rc.cache).isSome = true := hk
    obtain ⟨v, hv⟩ := Option.isSome_iff_exists.mp hsome
    have hvr : v = r := hclean r hr v hv
    rw [hv, hvr] at hcp
    cases hres : lookupKV (r.source ++ "::" ++ url) rc.matchResults with
    | some b =>
      have ht := test_hit_eq newRE rc rc (.re r) url r b hcp hres
      rw [ht]
      refine ⟨?_, hclean, hacc⟩
      exact hacc r hr _ b (mem_of_lookupKV hres) rfl
    | none =>
      have ht := test_miss_append_eq newRE rc rc (.re r) url r hcp hres
      rw [ht]
      exact ⟨rfl, cleanFor_results_change hclean _, accFor_insert hr hacc hcons⟩
  · rw [if_neg hk] at hcp
    have hclean2 :
        CleanFor { rc with cache := setKV (r.source ++ r.flags) r rc.cache } rules0 :=
      cleanFor_compile_insert hr hclean hinj
    have hacc2 :
        AccFor { rc with cache := setKV (r.source ++ r.flags) r rc.cache } rules0 url :=
      accFor_cache_change hacc _
    cases hres : lookupKV (r.source ++ "::" ++ url) rc.matchResults with
    | some b =>
      have ht := test_hit_eq newRE rc _ (.re r) url r b hcp hres
      rw [ht]
      refine ⟨?_, hclean2, hacc2⟩
      exact hacc r hr _ b (mem_of_lookupKV hres) rfl
    | none =>
      have ht := test_miss_append_eq newRE rc _ (.re r) url r hcp hres
      rw [ht]
      exact ⟨rfl, cleanFor_results_change hclean2 _, accFor_insert hr hacc2 hcons⟩

/-- The `shouldBlockRequest` pattern loop, on a clean, accurate,
key-injective, source-consistent state, computes the disjunction of the
direct evaluations. -/
theorem blockAnyTest_good (newRE : String → Option JSRegExp)
    (rules0 : List JSRegExp) (url : String) (rules : List JSRegExp) :
    ∀ rc : RegexCache, (∀ x ∈ rules, x ∈ rules0) →
    CleanFor rc rules0 → AccFor rc rules0 url →
    KeyInj rules0 → SrcCons rules0 url →
    (blockAnyTest newRE rc rules url).1 = rules.any (fun x => x.testFn url) := by
  induction rules with
  | nil =>
    intro rc _ _ _ _ _
    simp [blockAnyTest]
  | cons r rest ih =>
    intro rc hsub hclean hacc hinj hcons
    have hrmem : r ∈ rules0 := hsub r (List.mem_cons_self r rest)
    have tg := test_good newRE rc rules0 url r hrmem hclean hacc hinj hcons
    unfold blockAnyTest
    simp only
    by_cases hb : (RegexCache.test newRE rc (.re r) url).1 = true
    · rw [if_pos hb]
      have hrt : r.testFn url = true := by
        rw [← tg.1]
        exact hb
      simp [hrt]
    · rw [if_neg hb]
      have hrec := ih (RegexCache.test newRE rc (.re r) url).2
        (fun x hx => hsub x (List.mem_cons_of_mem _ hx)) tg.2.1 tg.2.2 hinj hcons
      have hbf : (RegexCache.test newRE rc (.re r) url).1 = false := by
        cases hx : (RegexCache.test newRE rc (.re r) url).1
        · rfl
        · exact absurd hx hb
      have hrf : r.testFn url = false := by
        rw [← tg.1]
        exact hbf
      simp [hrf, hrec]

/-- C7, corrected.  `shouldBlockRequest(domain, url)` returns false
immediately when no block patterns are registered for the domain, and —
provided the regex cache is accurate for the domain's rules (clean pattern
cache, accurate result cache, injective keys, source-consistent rules) —
returns true exactly when some compiled pattern of the domain matches the
url.  The accuracy hypotheses are not vacuous and not removable: the result
cache is keyed by `source + "::" + url` and shared across patterns, so a
poisoned state makes `shouldBlockRequest` return the wrong boolean (see the
counterexample). -/
theorem C7_shouldBlock_accurate (newRE : String → Option JSRegExp)
    (idx : SiteIndexes) (rc : RegexCache) (domain url : String)
    (hclean : CleanFor rc (idx.getBlockRules domain))
    (hacc : AccFor rc (idx.getBlockRules domain) url)
    (hinj : KeyInj (idx.getBlockRules domain))
    (hcons : SrcCons (idx.getBlockRules domain) url) :
    (idx.getBlockRules domain = [] →
      (SiteIndexes.shouldBlockRequest newRE idx rc domain url).1 = false) ∧
    (SiteIndexes.shouldBlockRequest newRE idx rc domain url).1 =
      (idx.getBlockRules domain).any (fun x => x.testFn url) := by
  constructor
  · intro hnil
    unfold SiteIndexes.shouldBlockRequest
    simp only
    rw [hnil]
    simp
  · unfold SiteIndexes.shouldBlockRequest
    simp only
    by_cases he : (idx.getBlockRules domain).isEmpty = true
    · rw [if_pos he]
      have hnil : idx.getBlockRules domain = [] := by
        cases hg : idx.getBlockRules domain
        · rfl
        · rw [hg] at he
          simp [List.isEmpty] at he
      rw [hnil]
      simp
    · rw [if_neg he]
      exact blockAnyTest_good newRE (idx.getBlockRules domain) url
        (idx.getBlockRules domain) rc (fun x hx => hx) hclean hacc hinj hcons

/-- C7 witness: the spec's scenario.  Building the `nyt` catalog entry from
a fresh state satisfies the accuracy hypotheses, and `shouldBlock` answers
true for the tinypass url and false for the article url. -/
theorem C7_shouldBlock_accurate_witness :
    (SiteIndexes.shouldBlockRequest noNewRE nytBuilt.1 nytBuilt.2 "nytimes.com"
       "https://px.tinypass.com/xyz").1 = true ∧
    (SiteIndexes.shouldBlockRequest noNewRE nytBuilt.1 nytBuilt.2 "nytimes.com"
       "https://nytimes.com/article").1 = false := by
  have hrules : nytBuilt.1.getBlockRules "nytimes.com" = [reTinypass] := rfl
  have hmr : nytBuilt.2.matchResults = [] := rfl
  have hclean : CleanFor nytBuilt.2 (nytBuilt.1.getBlockRules "nytimes.com") := by
    rw [hrules]
    intro r hrm v hv
    have hr' : r = reTinypass := List.mem_singleton.mp hrm
    subst hr'
    have hlv : lookupKV (reTinypass.source ++ reTinypass.flags)
        nytBuilt.2.cache = some reTinypass := rfl
    rw [hlv] at hv
    injection hv with h
    exact h.symm
  have hinj : KeyInj (nytBuilt.1.getBlockRules "nytimes.com") := by
    rw [hrules]
    intro r hrm r2 hrm2 _
    rw [List.mem_singleton.mp hrm, List.mem_singleton.mp hrm2]
  have hacc1 : AccFor nytBuilt.2 (nytBuilt.1.getBlockRules "nytimes.com")
      "https://px.tinypass.com/xyz" := by
    intro r hrm k v hv hk
    rw [hmr] at hv
    exact absurd hv (List.not_mem_nil _)
  have hacc2 : AccFor nytBuilt.2 (nytBuilt.1.getBlockRules "nytimes.com")
      "https://nytimes.com/article" := by
    intro r hrm k v hv hk
    rw [hmr] at hv
    exact absurd hv (List.not_mem_nil _)
  have hcons1 : SrcCons (nytBuilt.1.getBlockRules "nytimes.com")
      "https://px.tinypass.com/xyz" := by
    rw [hrules]
    intro r hrm r2 hrm2 _
    rw [List.mem_singleton.mp hrm, List.mem_singleton.mp hrm2]
  have hcons2 : SrcCons (nytBuilt.1.getBlockRules "nytimes.com")
      "https://nytimes.com/article" := by
    rw [hrules]
    intro r hrm r2 hrm2 _
    rw [List.mem_singleton.mp hrm, List.mem_singleton.mp hrm2]
  constructor
  · have h := (C7_shouldBlock_accurate noNewRE nytBuilt.1 nytBuilt.2 "nytimes.com"
      "https://px.tinypass.com/xyz" hclean hacc1 hinj hcons1).2
    rw [h, hrules]
    decide
  · have h := (C7_shouldBlock_accurate noNewRE nytBuilt.1 nytBuilt.2 "nytimes.com"
      "https://nytimes.com/article" hclean hacc2 hinj hcons2).2
    rw [h, hrules]
    decide

/-- C7 counterexample: with the result cache poisoned by an earlier
`test(/a::b/, "a")` call, `shouldBlockRequest("d", "b::a")` answers false
although the domain's one compiled pattern `/a/` matches `"b::a"` — the
lookup key `"a" + "::" + "b::a"` collides with the poisoned entry
`"a::b" + "::" + "a"`. -/
theorem C7_shouldBlock_cex :
    (SiteIndexes.shouldBlockRequest noNewRE poisonedBuilt.1 poisonedBuilt.2
       "d" "b::a").1 = false ∧
    (poisonedBuilt.1.getBlockRules "d").any (fun x => x.testFn "b::a") = true := by
  constructor
  · decide
  · decide

/-! ## Idempotence and additivity of `buildIndexes` (claim C6) -/

theorem build_twice_domainMap (newRE : String → Option JSRegExp)
    (cat : List (String × SiteConfig)) (st : SiteIndexes × RegexCache) (k : String) :
    lookupKV k (buildIndexes newRE (buildIndexes newRE st cat) cat).1.domainMap =
      lookupKV k (buildIndexes newRE st cat).1.domainMap := by
  rw [build_domainMap newRE cat (buildIndexes newRE st cat) k,
      build_domainMap newRE cat st k]
  cases hc : catDomain k cat with
  | some v => rfl
  | none => rfl

theorem build_twice_groupMap (newRE : String → Option JSRegExp)
    (cat : List (String × SiteConfig)) (st : SiteIndexes × RegexCache) (k : String) :
    lookupKV k (buildIndexes newRE (buildIndexes newRE st cat) cat).1.groupMap =
      lookupKV k (buildIndexes newRE st cat).1.groupMap := by
  rw [build_groupMap newRE cat (buildIndexes newRE st cat) k,
      build_groupMap newRE cat st k]
  cases hc : catGroupName k cat with
  | some v => rfl
  | none => rfl

theorem build_twice_groupConfigs (newRE : String → Option JSRegExp)
    (cat : List (String × SiteConfig)) (st : SiteIndexes × RegexCache) (k : String) :
    lookupKV k (buildIndexes newRE (buildIndexes newRE st cat) cat).1.groupConfigs =
      lookupKV k (buildIndexes newRE st cat).1.groupConfigs := by
  rw [build_groupConfigs newRE cat (buildIndexes newRE st cat) k,
      build_groupConfigs newRE cat st k]
  cases hc : catGroupCfg k cat with
  | some v => rfl
  | none => rfl

theorem build_twice_getSiteConfig (newRE : String → Option JSRegExp)
    (cat : List (String × SiteConfig)) (st : SiteIndexes × RegexCache) (d : String) :
    (buildIndexes newRE (buildIndexes newRE st cat) cat).1.getSiteConfig d =
      (buildIndexes newRE st cat).1.getSiteConfig d := by
  unfold SiteIndexes.getSiteConfig
  rw [build_twice_domainMap newRE cat st d, build_twice_groupMap newRE cat st d]
  cases h1 : lookupKV d (buildIndexes newRE st cat).1.domainMap with
  | some cfg => rfl
  | none =>
    simp only
    cases h2 : lookupKV d (buildIndexes newRE st cat).1.groupMap with
    | none => rfl
    | some g =>
      simp only
      exact build_twice_groupConfigs newRE cat st g

theorem build_twice_hasDomain (newRE : String → Option JSRegExp)
    (cat : List (String × SiteConfig)) (st : SiteIndexes × RegexCache) (k : String) :
    (buildIndexes newRE (buildIndexes newRE st cat) cat).1.hasDomain k =
      (buildIndexes newRE st cat).1.hasDomain k := by
  rw [build_indexed newRE cat (buildIndexes newRE st cat) k,
      build_indexed newRE cat st k]
  cases catIndexed k cat <;> simp

/-- C6, corrected.  Rebuilding over the same catalog changes no
`getSiteConfig` or `hasDomain` lookup, and a further build over any
partition never erases an indexed domain.  `shouldBlockRequest`, however,
is excluded: each rebuild appends the entry's compiled patterns to the
domain's already-populated block-rule list again, and results flow through
the shared bounded result cache, so the second build can change the answer
(see the counterexample). -/
theorem C6_build_idempotent_additive (newRE : String → Option JSRegExp)
    (st : SiteIndexes × RegexCache) (cat cat2 : List (String × SiteConfig))
    (d : String) :
    (buildIndexes newRE (buildIndexes newRE st cat) cat).1.getSiteConfig d =
      (buildIndexes newRE st cat).1.getSiteConfig d ∧
    (buildIndexes newRE (buildIndexes newRE st cat) cat).1.hasDomain d =
      (buildIndexes newRE st cat).1.hasDomain d ∧
    ((buildIndexes newRE st cat).1.hasDomain d = true →
      (buildIndexes newRE (buildIndexes newRE st cat) cat2).1.hasDomain d = true) := by
  refine ⟨build_twice_getSiteConfig newRE cat st d,
          build_twice_hasDomain newRE cat st d, ?_⟩
  intro h
  rw [build_indexed newRE cat2 (buildIndexes newRE st cat) d, h]
  simp

/-- C6 witness: building the `nyt` catalog twice leaves both lookups for
`"nytimes.com"` unchanged, and a further build over an unrelated partition
keeps the domain indexed. -/
theorem C6_build_idempotent_additive_witness :
    (buildIndexes noNewRE nytBuilt nytCatalog).1.getSiteConfig "nytimes.com" =
      nytBuilt.1.getSiteConfig "nytimes.com" ∧
    (buildIndexes noNewRE nytBuilt nytCatalog).1.hasDomain "nytimes.com" =
      nytBuilt.1.hasDomain "nytimes.com" ∧
    nytBuilt.1.hasDomain "nytimes.com" = true ∧
    (buildIndexes noNewRE nytBuilt oneRuleCatalog).1.hasDomain "nytimes.com" = true := by
  have h := C6_build_idempotent_additive noNewRE ({}, RegexCache.new) nytCatalog
    oneRuleCatalog "nytimes.com"
  exact ⟨h.1, h.2.1, by decide, h.2.2 (by decide)⟩

/-- C6 counterexample: `buildIndexes` is not idempotent for
`shouldBlockRequest`.  Over the two-rule catalog for domain `"d"` (patterns
`/a/` and `/zzz/`) and the poisoned one-slot cache, one build answers false
for `shouldBlockRequest("d", "b::a")` — the collision key `"a::b::a"` hits
the stale entry — while the rebuilt state answers true: the duplicated rule
list `[/a/, /zzz/, /a/, /zzz/]` re-tests `/a/` after `/zzz/`'s insertion has
evicted the stale entry, and the direct evaluation is true. -/
theorem C6_buildIndexes_cex :
    (SiteIndexes.shouldBlockRequest noNewRE builtOnce.1 builtOnce.2
       "d" "b::a").1 = false ∧
    (SiteIndexes.shouldBlockRequest noNewRE builtTwice.1 builtTwice.2
       "d" "b::a").1 = true := by
  constructor
  · decide
  · decide

end BPC
